import Mathlib

/-!
Verification development for the exam-seating-system allocation engine
(`seating/utils/allocation.py`).  The Python functions are shallowly
embedded as executable Lean definitions: deques become lists (popleft is
head/tail), dicts become assoc lists or functions, and the stateful
allocation driver becomes a structurally recursive loop over the room
list threading an explicit state record.
-/

namespace Seating

/-- A student record, as the allocator sees it: `roll` is the unique roll
string, `year` the academic year, `sec` the section letter
(`section` in the Django model; renamed since `section` is a Lean keyword). -/
structure Student where
  roll : String
  name : String
  year : Nat
  sec : String
  deriving DecidableEq, Repr

/-- A room: `rows × cols` benches, two seats (left/right) per bench. -/
structure Room where
  rows : Nat
  cols : Nat
  deriving DecidableEq, Repr

/-- Seat position on a bench. -/
inductive SeatPos where
  | left
  | right
  deriving DecidableEq, Repr

/-- One persisted seat-assignment record (`SeatAssignment` model).  The
room foreign key is represented by the room's index in the run's room
list; the allocation foreign key by a numeric id. -/
structure SeatAssignment where
  allocation : Nat
  roomIdx : Nat
  bench_no : Nat
  seat_pos : SeatPos
  bench_type : String
  student : Student
  row : Nat
  column : Nat
  position : SeatPos
  deriving DecidableEq, Repr

/-- Which half of a group's queue (the `"first"` / `"second"` strings of
the Python dict). -/
inductive Half where
  | first
  | second
  deriving DecidableEq, Repr

/-- The other half. -/
def Half.toggle : Half → Half
  | .first => .second
  | .second => .first

/-- Lexicographic comparison of character lists by code point — the
order Python (and the database) uses on roll and section strings,
written out so that it evaluates in the kernel. -/
def charListLt : List Char → List Char → Bool
  | [], [] => false
  | [], _ :: _ => true
  | _ :: _, [] => false
  | a :: as, b :: bs => if a < b then true else if b < a then false else charListLt as bs

/-- Lexicographic string comparison (Python `<` on strings). -/
def strLt (a b : String) : Bool :=
  charListLt a.data b.data

/-- Insert a student into a list sorted ascending by roll
(lexicographic string order, as the database `order_by('roll')` does). -/
def insertStudent (s : Student) : List Student → List Student
  | [] => [s]
  | t :: ts =>
      if strLt s.roll t.roll = true ∨ s.roll = t.roll then s :: t :: ts
      else t :: insertStudent s ts

/-- Model of `sorted(students, key=roll)`: insertion sort by roll. -/
def sortByRoll (l : List Student) : List Student :=
  l.foldr insertStudent []

/-- Append student `s` to the entry of key `k` in an assoc list of
groups, adding a new entry at the end if the key is absent
(`defaultdict(list)` insertion order). -/
def addToGroup (acc : List ((Nat × String) × List Student)) (k : Nat × String) (s : Student) :
    List ((Nat × String) × List Student) :=
  match acc with
  | [] => [(k, [s])]
  | (k', l) :: rest =>
      if k' = k then (k', l ++ [s]) :: rest else (k', l) :: addToGroup rest k s

/-- Assoc-list lookup. -/
def lookupGroup (acc : List ((Nat × String) × List Student)) (k : Nat × String) :
    Option (List Student) :=
  match acc with
  | [] => none
  | (k', l) :: rest => if k' = k then some l else lookupGroup rest k

/-- Insert a year into a strictly sorted list, skipping duplicates
(used to model Python's `sorted(set(...))` on years). -/
def insertSortedNat (x : Nat) : List Nat → List Nat
  | [] => [x]
  | y :: ys =>
      if x < y then x :: y :: ys
      else if x = y then y :: ys
      else y :: insertSortedNat x ys

/-- Model of `sorted(set(l))` for naturals. -/
def sortDedupNat (l : List Nat) : List Nat :=
  l.foldr insertSortedNat []

/-- Insert a section string into a strictly sorted list, skipping
duplicates. -/
def insertSortedStr (x : String) : List String → List String
  | [] => [x]
  | y :: ys =>
      if strLt x y = true then x :: y :: ys
      else if x = y then y :: ys
      else y :: insertSortedStr x ys

/-- Model of `sorted(set(l))` for strings (Python's lexicographic order). -/
def sortDedupStr (l : List String) : List String :=
  l.foldr insertSortedStr []

/-- Model of `sorted(sections_per_year.get(y, set()))`: the sorted set of
sections that year `y` has among the available groups. -/
def sortedSections (groups : List (Nat × String)) (y : Nat) : List String :=
  sortDedupStr ((groups.filter (fun g => g.1 = y)).map Prod.snd)

/-- A bench pairing: two `(year, section)` group keys that may share a
bench. -/
abbrev GPair := (Nat × String) × (Nat × String)

/-- Embedding of `build_dynamic_pairings` (allocation.py lines 18–91), translated
from the source.  `available_groups` and `available_years` stand for the
Python sets; the years are sorted-with-dedup exactly as
`sorted(available_years)` does for a set. -/
def build_dynamic_pairings (available_groups : List (Nat × String))
    (available_years : List Nat) : List GPair :=
  if available_groups = [] ∨ available_years = [] then []
  else
    match sortDedupNat available_years with
    | [y1, y2, y3] =>
        let preferred_cycle : List GPair :=
          [((y1, "A"), (y2, "B")),
           ((y2, "B"), (y3, "A")),
           ((y3, "A"), (y1, "B")),
           ((y1, "B"), (y2, "A")),
           ((y2, "A"), (y3, "B")),
           ((y3, "B"), (y1, "A"))]
        let pairings := preferred_cycle.filter
          (fun p => decide (p.1 ∈ available_groups) && decide (p.2 ∈ available_groups))
        if pairings ≠ [] then pairings
        else
          ([(y1, y2), (y2, y3), (y3, y1)]).foldl
            (fun acc fp =>
              match sortedSections available_groups fp.1, sortedSections available_groups fp.2 with
              | s1 :: _, s2 :: _ => acc ++ [((fp.1, s1), (fp.2, s2))]
              | _, _ => acc)
            []
    | [y1, y2] =>
        (sortedSections available_groups y1).foldl
          (fun acc s1 =>
            acc ++ (sortedSections available_groups y2).map (fun s2 => ((y1, s1), (y2, s2))))
          []
    | _ => []

/-- Reference definition of the pairing builder, written from the spec's
words (§4.3): with exactly 3 distinct years present, the fixed 6-pairing
cycle filtered to pairs whose both groups are present, falling back to
(y1,y2),(y2,y3),(y3,y1) with each year's lexicographically-first
available section when the filter yields nothing; with exactly 2
distinct years, the full Cartesian product of year-1 sections with
year-2 sections, sections sorted ascending; with 1 year or none, empty. -/
def build_dynamic_pairings_spec (available_groups : List (Nat × String)) : List GPair :=
  match sortDedupNat (available_groups.map Prod.fst) with
  | [y1, y2, y3] =>
      let cycle6 : List GPair :=
        [((y1, "A"), (y2, "B")),
         ((y2, "B"), (y3, "A")),
         ((y3, "A"), (y1, "B")),
         ((y1, "B"), (y2, "A")),
         ((y2, "A"), (y3, "B")),
         ((y3, "B"), (y1, "A"))]
      let filtered := cycle6.filter
        (fun p => decide (p.1 ∈ available_groups) && decide (p.2 ∈ available_groups))
      if filtered ≠ [] then filtered
      else
        ([(y1, y2), (y2, y3), (y3, y1)]).foldl
          (fun acc fp =>
            match sortedSections available_groups fp.1, sortedSections available_groups fp.2 with
            | s1 :: _, s2 :: _ => acc ++ [((fp.1, s1), (fp.2, s2))]
            | _, _ => acc)
          []
  | [y1, y2] =>
      (sortedSections available_groups y1).foldl
        (fun acc s1 =>
          acc ++ (sortedSections available_groups y2).map (fun s2 => ((y1, s1), (y2, s2))))
        []
  | _ => []

/-- The round-robin search over the pairing list: try `len(pairings)`
offsets starting at `pairing_idx`, returning the first index whose
pairing has both groups nonempty according to the remaining-count
function `rc`.  This is the loop shared by `get_next_valid_pairing`
(lines 94–108) and the driver's inline search (lines 444–450). -/
def find_valid_pairing (rc : (Nat × String) → Nat) (pairings : List GPair)
    (pairing_idx : Nat) : Nat → Nat → Option (Nat × GPair)
  | _i, 0 => none
  | i, tries + 1 =>
    let idx := (pairing_idx + i) % pairings.length
    let p := pairings.getD idx ((0, "A"), (0, "B"))
    if 0 < rc p.1 ∧ 0 < rc p.2 then some (idx, p)
    else find_valid_pairing rc pairings pairing_idx (i + 1) tries

/-- Embedding of `get_next_valid_pairing` (allocation.py lines 94–108): the same
round-robin search, but falling back to the first pairing — or the dummy
`((0,'A'),(0,'B'))` — when no pairing has students on both sides.
`rc` abstracts `len(student_groups.get(g, deque()))`. -/
def get_next_valid_pairing (rc : (Nat × String) → Nat) (pairings : List GPair)
    (pairing_idx : Nat) : GPair :=
  match find_valid_pairing rc pairings pairing_idx 0 pairings.length with
  | some p => p.2
  | none => pairings.headD ((0, "A"), (0, "B"))

/-- Model of Python's `str.strip()` (whitespace trim) over the
character list. -/
def pyStrip (s : String) : String :=
  String.mk (((s.data.dropWhile (fun c => c.isWhitespace)).reverse.dropWhile
    (fun c => c.isWhitespace)).reverse)

/-- Model of Python's `str.lower()` over the character list. -/
def pyLower (s : String) : String :=
  String.mk (s.data.map Char.toLower)

/-- Embedding of `group_students_by_year_section` (lines 111–141).  The Python
`random.Random` is abstracted by a seeded generator: `R` is the
generator state, `mkRng` is `random.Random(seed)` (the `none` case
standing for the unseeded `random.Random()`), and `shuffleR` is
`rng.shuffle`, returning the shuffled list and the advanced generator.
"cycle" keeps roll order; "block" shuffles each half of each group. -/
def group_students_by_year_section {R : Type} (mkRng : Option Nat → R)
    (shuffleR : R → List Student → List Student × R)
    (student_queryset : List Student) (distribution_strategy : String)
    (seed : Option Nat) : List ((Nat × String) × List Student) :=
  let students := sortByRoll student_queryset
  let grouped_lists := students.foldl (fun acc s => addToGroup acc (s.year, s.sec) s) []
  let strategy := pyLower (pyStrip (if distribution_strategy = "" then "cycle" else distribution_strategy))
  if strategy = "block" then
    (grouped_lists.foldl
      (fun acc entry =>
        let students_list := entry.2
        let half := (students_list.length + 1) / 2
        let first_half := students_list.take half
        let second_half := students_list.drop half
        let p1 := shuffleR acc.2 first_half
        let p2 := shuffleR p1.2 second_half
        (acc.1 ++ [(entry.1, p1.1 ++ p2.1)], p2.2))
      (([] : List ((Nat × String) × List Student)), mkRng seed)).1
  else grouped_lists

/-- Embedding of `calculate_pre_allocation_metrics` (lines 144–152):
`students_per_room = ceil(total/num_rooms)`,
`max_per_group_in_room = ceil(students_per_room/2)`. -/
def calculate_pre_allocation_metrics (total_students num_rooms : Nat) : Nat × Nat :=
  let students_per_room := (total_students + num_rooms - 1) / num_rooms
  let max_per_group_in_room := (students_per_room + 1) / 2
  (students_per_room, max_per_group_in_room)

/-- Build one `SeatAssignment` record: benches are numbered column-wise,
`column = (bench_no-1) div rows + 1`, `row = (bench_no-1) mod rows + 1`. -/
def mkSeat (allocId roomIdx bench_no : Nat) (pos : SeatPos) (bench_type : String)
    (stu : Student) (rows : Nat) : SeatAssignment :=
  { allocation := allocId, roomIdx := roomIdx, bench_no := bench_no, seat_pos := pos,
    bench_type := bench_type, student := stu,
    row := (bench_no - 1) % rows + 1, column := (bench_no - 1) / rows + 1, position := pos }

/-- The bench loop of `allocate_room_seats` (lines 188–227): at each
bench, stop if both groups reached their limits, otherwise pop a left
seat from group 1 and a right seat from group 2 when available and under
limit.  `fuel` counts the benches still to visit. -/
def allocate_room_seats_go (allocId roomIdx rows : Nat) (bench_type : String)
    (limit1 limit2 : Nat) :
    List Student → List Student → Nat → Nat → Nat → Nat →
      List SeatAssignment × Nat × Nat
  | _g1, _g2, c1, c2, _bench_no, 0 => ([], c1, c2)
  | g1, g2, c1, c2, bench_no, fuel + 1 =>
    if limit1 ≤ c1 ∧ limit2 ≤ c2 then ([], c1, c2)
    else
      let leftStep : List SeatAssignment × List Student × Nat :=
        match g1 with
        | s :: rest =>
            if c1 < limit1 then
              ([mkSeat allocId roomIdx bench_no .left bench_type s rows], rest, c1 + 1)
            else ([], g1, c1)
        | [] => ([], [], c1)
      let rightStep : List SeatAssignment × List Student × Nat :=
        match g2 with
        | s :: rest =>
            if c2 < limit2 then
              ([mkSeat allocId roomIdx bench_no .right bench_type s rows], rest, c2 + 1)
            else ([], g2, c2)
        | [] => ([], [], c2)
      let tail :=
        allocate_room_seats_go allocId roomIdx rows bench_type limit1 limit2
          leftStep.2.1 rightStep.2.1 leftStep.2.2 rightStep.2.2 (bench_no + 1) fuel
      (leftStep.1 ++ rightStep.1 ++ tail.1, tail.2)

/-- Embedding of `allocate_room_seats` (lines 155–229): limits default to
`max_per_group_in_room`, and explicit limits are clamped to the supplied
deque's length. -/
def allocate_room_seats (allocId roomIdx : Nat) (room : Room)
    (group1_deque group2_deque : List Student) (bench_type : String)
    (max_per_group_in_room : Nat) (group1_room_limit group2_room_limit : Option Nat) :
    List SeatAssignment × Nat × Nat :=
  let total_benches := room.rows * room.cols
  let l1 := match group1_room_limit with
    | none => max_per_group_in_room
    | some v => min v group1_deque.length
  let l2 := match group2_room_limit with
    | none => max_per_group_in_room
    | some v => min v group2_deque.length
  allocate_room_seats_go allocId roomIdx room.rows bench_type l1 l2
    group1_deque group2_deque 0 0 1 total_benches

/-- Has the single-year loop hit its optional room limit? -/
def reachedLimit (room_limit : Option Nat) (used : Nat) : Bool :=
  match room_limit with
  | some rl => rl ≤ used
  | none => false

/-- The bench loop of `allocate_room_seats_single_year` (lines 249–279):
one student per bench on the left seat, right seat left empty, stopping
at queue exhaustion or the room limit. -/
def allocate_room_seats_single_year_go (allocId roomIdx rows : Nat) (bench_type : String)
    (room_limit : Option Nat) :
    List Student → Nat → Nat → Nat → List SeatAssignment × Nat
  | _dq, used, _bench_no, 0 => ([], used)
  | dq, used, bench_no, fuel + 1 =>
    match dq with
    | [] => ([], used)
    | s :: rest =>
        if reachedLimit room_limit used then ([], used)
        else
          let tail := allocate_room_seats_single_year_go allocId roomIdx rows bench_type
            room_limit rest (used + 1) (bench_no + 1) fuel
          (mkSeat allocId roomIdx bench_no .left bench_type s rows :: tail.1, tail.2)

/-- Embedding of `allocate_room_seats_single_year` (lines 232–279). -/
def allocate_room_seats_single_year (allocId roomIdx : Nat) (room : Room)
    (year_deque : List Student) (bench_type : String) (room_limit : Option Nat) :
    List SeatAssignment × Nat :=
  allocate_room_seats_single_year_go allocId roomIdx room.rows bench_type room_limit
    year_deque 0 1 (room.rows * room.cols)

/-- The run-local mutable state of `generate_allocation` (lines
346–381): the half-split queues per group key (`group_half_queues`, a
total function defaulting to two empty queues), the preferred-half
pointer per group (`next_half_for_group`, defaulting to `first`), and
the two round-robin indices.  `keys` records the dict's key list. -/
structure AllocState where
  keys : List (Nat × String)
  halves : (Nat × String) → List Student × List Student
  nextHalf : (Nat × String) → Half
  pairingIdx : Nat
  groupIdx : Nat

/-- Embedding of `remaining_count` (lines 360–362). -/
def remainingCount (st : AllocState) (k : Nat × String) : Nat :=
  (st.halves k).1.length + (st.halves k).2.length

/-- Model of `sum(remaining_count(k) for k in group_half_queues.keys())`. -/
def totalRemaining (st : AllocState) : Nat :=
  (st.keys.map (remainingCount st)).sum

/-- The set of group keys that still hold students (line 391). -/
def availableGroups (st : AllocState) : List (Nat × String) :=
  st.keys.filter (fun k => 0 < remainingCount st k)

/-- Embedding of `pick_half_queue` (lines 364–373): the preferred half if nonempty,
else the other half if nonempty, else an empty queue with no half tag. -/
def pick_half_queue (st : AllocState) (group_key : Nat × String) (preferred_half : Half) :
    List Student × Option Half :=
  let halves := st.halves group_key
  let pr :=
    match preferred_half with
    | Half.first => (halves.1, halves.2)
    | Half.second => (halves.2, halves.1)
  if pr.1 ≠ [] then (pr.1, some preferred_half)
  else if pr.2 ≠ [] then (pr.2, some preferred_half.toggle)
  else ([], none)

/-- Insert a group key into a list sorted by Python tuple order
(year first, then section string). -/
def insertKey (k : Nat × String) : List (Nat × String) → List (Nat × String)
  | [] => [k]
  | g :: gs =>
      if k.1 < g.1 ∨ (k.1 = g.1 ∧ (strLt k.2 g.2 = true ∨ k.2 = g.2)) then k :: g :: gs
      else g :: insertKey k gs

/-- Model of `sorted(available_groups)` (line 405). -/
def sortKeys (l : List (Nat × String)) : List (Nat × String) :=
  l.foldr insertKey []

/-- The single-year group search (lines 410–416): up to
`len(group_order)` tries of the rotating index, which advances on every
try, successful or not. -/
def find_next_group (rc : (Nat × String) → Nat) (group_order : List (Nat × String)) :
    Nat → Nat → Option (Nat × String) × Nat
  | gidx, 0 => (none, gidx)
  | gidx, tries + 1 =>
    let candidate := group_order.getD (gidx % group_order.length) (0, "")
    if 0 < rc candidate then (some candidate, gidx + 1)
    else find_next_group rc group_order (gidx + 1) tries

/-- Drop the `n` consumed students from the front of the half that the
allocator drew from (the in-place `popleft`s on the aliased deque). -/
def consumeHalf (st : AllocState) (k : Nat × String) (h : Option Half) (n : Nat) : AllocState :=
  match h with
  | none => st
  | some Half.first =>
      { st with halves := fun k' =>
          if k' = k then ((st.halves k).1.drop n, (st.halves k).2) else st.halves k' }
  | some Half.second =>
      { st with halves := fun k' =>
          if k' = k then ((st.halves k).1, (st.halves k).2.drop n) else st.halves k' }

/-- Record the opposite of the half just used as the group's next
preferred half (lines 437–438 and 473–476). -/
def toggleAfterUse (st : AllocState) (k : Nat × String) (h : Option Half) : AllocState :=
  match h with
  | none => st
  | some u =>
      { st with nextHalf := fun k' => if k' = k then u.toggle else st.nextHalf k' }

/-- The bench-type cycle `['A', 'B', 'C']` (line 376). -/
def bench_types : List String := ["A", "B", "C"]

/-- The body of one room iteration of `generate_allocation`'s main loop
(lines 390–483, without the final aggregation): recompute available
groups, years and pairings, then either the single-year branch or the
pairing branch, returning the room's records and the updated state.
The `continue` paths return no records. -/
def roomStep (allocId max_per_group_in_room : Nat) (st : AllocState) (room : Room)
    (room_idx : Nat) : List SeatAssignment × AllocState :=
  let available_groups := availableGroups st
  let available_years := available_groups.map Prod.fst
  let pairings := build_dynamic_pairings available_groups available_years
  let bench_type := bench_types.getD (room_idx % bench_types.length) "A"
  if (sortDedupNat available_years).length = 1 then
    let group_order := sortKeys available_groups
    if group_order = [] then ([], st)
    else
      let found :=
        find_next_group (remainingCount st) group_order st.groupIdx group_order.length
      let st1 := { st with groupIdx := found.2 }
      match found.1 with
      | none => ([], st1)
      | some selected_group =>
        let preferred_half := st.nextHalf selected_group
        let picked := pick_half_queue st selected_group preferred_half
        let room_limit := picked.1.length
        let res :=
          allocate_room_seats_single_year allocId room_idx room picked.1 bench_type
            (some room_limit)
        let st2 := consumeHalf st1 selected_group picked.2 res.2
        (res.1, toggleAfterUse st2 selected_group picked.2)
  else
    match find_valid_pairing (remainingCount st) pairings st.pairingIdx 0 pairings.length with
    | none => ([], st)
    | some (selected_idx, (group1_key, group2_key)) =>
      let st1 := { st with pairingIdx := (selected_idx + 1) % pairings.length }
      let g1_pref := st.nextHalf group1_key
      let g2_pref := g1_pref.toggle
      let picked1 := pick_half_queue st group1_key g1_pref
      let picked2 := pick_half_queue st group2_key g2_pref
      let res :=
        allocate_room_seats allocId room_idx room picked1.1 picked2.1 bench_type
          max_per_group_in_room (some picked1.1.length) (some picked2.1.length)
      let st2 := consumeHalf st1 group1_key picked1.2 res.2.1
      let st3 := consumeHalf st2 group2_key picked2.2 res.2.2
      let st4 := toggleAfterUse (toggleAfterUse st3 group1_key picked1.2) group2_key picked2.2
      (res.1, st4)

/-- The main room loop (lines 383–483): break before a room when no
students remain; otherwise run the room body, count the room as
processed only when it produced records, and accumulate. -/
def allocLoop (allocId max_per_group_in_room : Nat) :
    AllocState → List Room → Nat → List SeatAssignment × Nat
  | _st, [], _room_idx => ([], 0)
  | st, room :: rest, room_idx =>
    if totalRemaining st = 0 then ([], 0)
    else
      let step := roomStep allocId max_per_group_in_room st room room_idx
      let tail := allocLoop allocId max_per_group_in_room step.2 rest (room_idx + 1)
      if step.1 = [] then tail
      else (step.1 ++ tail.1, tail.2 + 1)

/-- The outcome of `generate_allocation`: the persisted record set after
the delete-then-bulk-create sequence (`db`), the freshly created records
in creation order (`new`), and the returned summary counts. -/
structure AllocResult where
  db : List SeatAssignment
  new : List SeatAssignment
  total_seats : Nat
  rooms_processed : Nat
  deriving DecidableEq, Repr

/-- The initial loop state (lines 346–358): every group's queue is
half-split, `half = ceil(count/2)` students to the first half, and every
preferred-half pointer starts at `"first"`. -/
def initialState (student_groups : List ((Nat × String) × List Student)) : AllocState :=
  { keys := student_groups.map Prod.fst
    halves := fun k =>
      match lookupGroup student_groups k with
      | some l => (l.take ((l.length + 1) / 2), l.drop ((l.length + 1) / 2))
      | none => ([], [])
    nextHalf := fun _ => Half.first
    pairingIdx := 0
    groupIdx := 0 }

/-- Embedding of `generate_allocation` (lines 282–492): delete this allocation's old
records, return zero counts on empty students or rooms, otherwise group
and half-split the students and run the room loop.  The RNG is
abstracted as in `group_students_by_year_section`; `_rows_per_room`,
`_cols_per_room` and `_flip_lr` are accepted and ignored exactly as the
source ignores them. -/
def generate_allocation {R : Type} (mkRng : Option Nat → R)
    (shuffleR : R → List Student → List Student × R)
    (allocId : Nat) (db : List SeatAssignment)
    (student_queryset : List Student) (rooms : List Room)
    (_rows_per_room _cols_per_room : Option Nat)
    (distribution_strategy : String) (seed : Option Nat) (_flip_lr : Bool) : AllocResult :=
  let db1 := db.filter (fun r => r.allocation ≠ allocId)
  let total_students := student_queryset.length
  let num_rooms := rooms.length
  if total_students = 0 ∨ num_rooms = 0 then
    { db := db1, new := [], total_seats := 0, rooms_processed := 0 }
  else
    let metrics := calculate_pre_allocation_metrics total_students num_rooms
    let student_groups :=
      group_students_by_year_section mkRng shuffleR student_queryset distribution_strategy seed
    let st0 := initialState student_groups
    let result := allocLoop allocId metrics.2 st0 rooms 0
    { db := db1 ++ result.1, new := result.1, total_seats := result.1.length,
      rooms_processed := result.2 }

/-! ### Generic list lemmas -/

/-- `Interleave l1 l2 l`: `l` is an order-preserving merge of `l1` and
`l2` (each of `l1`, `l2` is a subsequence of `l` and together they
exhaust it). -/
inductive Interleave : List Student → List Student → List Student → Prop
  | nil : Interleave [] [] []
  | cons_left {l1 l2 l : List Student} (a : Student) :
      Interleave l1 l2 l → Interleave (a :: l1) l2 (a :: l)
  | cons_right {l1 l2 l : List Student} (a : Student) :
      Interleave l1 l2 l → Interleave l1 (a :: l2) (a :: l)

theorem Interleave.nil_right (l : List Student) : Interleave l [] l := by
  induction l with
  | nil => exact Interleave.nil
  | cons a t ih => exact Interleave.cons_left a ih

theorem Interleave.nil_left (l : List Student) : Interleave [] l l := by
  induction l with
  | nil => exact Interleave.nil
  | cons a t ih => exact Interleave.cons_right a ih

theorem Interleave.append {a b x c d y : List Student}
    (h1 : Interleave a b x) (h2 : Interleave c d y) :
    Interleave (a ++ c) (b ++ d) (x ++ y) := by
  induction h1 with
  | nil => simpa using h2
  | cons_left s _ ih => exact Interleave.cons_left s ih
  | cons_right s _ ih => exact Interleave.cons_right s ih

/-- Elements produced by a fold that only appends satisfy `P` when every
appended chunk does. -/
theorem mem_foldl_append {α β : Type} (step : List β → α → List β) (P : β → Prop) :
    ∀ (l : List α), (∀ acc, ∀ x ∈ l, ∃ ext, step acc x = acc ++ ext ∧ ∀ p ∈ ext, P p) →
      ∀ (acc₀ : List β), (∀ p ∈ acc₀, P p) → ∀ p ∈ l.foldl step acc₀, P p := by
  intro l
  induction l with
  | nil => intro _ acc₀ hacc p hp; exact hacc p hp
  | cons x xs ih =>
      intro h acc₀ hacc p hp
      refine ih (fun acc y hy => h acc y (List.mem_cons_of_mem _ hy)) (step acc₀ x) ?_ p hp
      obtain ⟨ext, hstep, hext⟩ := h acc₀ x (List.mem_cons_self _ _)
      intro q hq
      rw [hstep] at hq
      rcases List.mem_append.1 hq with hq | hq
      · exact hacc q hq
      · exact hext q hq

theorem mem_insertSortedNat {x a : Nat} {l : List Nat} :
    a ∈ insertSortedNat x l ↔ a = x ∨ a ∈ l := by
  induction l with
  | nil => simp [insertSortedNat]
  | cons y ys ih =>
      by_cases h1 : x < y
      · simp [insertSortedNat, h1]
      · by_cases h2 : x = y
        · subst h2
          simp [insertSortedNat, h1]
        · simp only [insertSortedNat, h1, h2, if_false, List.mem_cons, ih]
          tauto

theorem mem_sortDedupNat {a : Nat} {l : List Nat} :
    a ∈ sortDedupNat l ↔ a ∈ l := by
  induction l with
  | nil => simp [sortDedupNat]
  | cons y ys ih =>
      simp only [sortDedupNat, List.foldr] at ih ⊢
      rw [mem_insertSortedNat, ih]
      simp

theorem insertSortedNat_ne_nil (x : Nat) (l : List Nat) : insertSortedNat x l ≠ [] := by
  cases l with
  | nil => simp [insertSortedNat]
  | cons y ys =>
      simp only [insertSortedNat]
      split
      · simp
      · split <;> simp

theorem sortDedupNat_eq_nil_iff {l : List Nat} : sortDedupNat l = [] ↔ l = [] := by
  cases l with
  | nil => simp [sortDedupNat]
  | cons y ys =>
      simp only [sortDedupNat, List.foldr]
      constructor
      · intro h; exact absurd h (insertSortedNat_ne_nil _ _)
      · intro h; cases h

theorem pairwise_insertSortedNat {x : Nat} {l : List Nat}
    (h : List.Pairwise (· < ·) l) :
    List.Pairwise (· < ·) (insertSortedNat x l) := by
  induction l with
  | nil => simp [insertSortedNat]
  | cons y ys ih =>
      rcases List.pairwise_cons.1 h with ⟨hy, hys⟩
      by_cases h1 : x < y
      · simp only [insertSortedNat, h1, if_true]
        refine List.pairwise_cons.2 ⟨?_, h⟩
        intro z hz
        rcases List.mem_cons.1 hz with rfl | hz
        · exact h1
        · exact lt_trans h1 (hy z hz)
      · by_cases h2 : x = y
        · simpa [insertSortedNat, h1, h2] using h
        · have hyx : y < x := by omega
          simp only [insertSortedNat, h1, h2, if_false]
          refine List.pairwise_cons.2 ⟨?_, ih hys⟩
          intro z hz
          rcases mem_insertSortedNat.1 hz with rfl | hz
          · exact hyx
          · exact hy z hz

theorem pairwise_sortDedupNat (l : List Nat) : List.Pairwise (· < ·) (sortDedupNat l) := by
  induction l with
  | nil => simp [sortDedupNat]
  | cons y ys ih => exact pairwise_insertSortedNat ih

theorem mem_insertSortedStr {x a : String} {l : List String} :
    a ∈ insertSortedStr x l ↔ a = x ∨ a ∈ l := by
  induction l with
  | nil => simp [insertSortedStr]
  | cons y ys ih =>
      by_cases h1 : strLt x y = true
      · simp [insertSortedStr, h1]
      · by_cases h2 : x = y
        · subst h2
          simp [insertSortedStr, h1]
        · simp only [insertSortedStr, h1, h2, Bool.false_eq_true, if_false,
            List.mem_cons, ih]
          tauto

theorem mem_sortDedupStr {a : String} {l : List String} :
    a ∈ sortDedupStr l ↔ a ∈ l := by
  induction l with
  | nil => simp [sortDedupStr]
  | cons y ys ih =>
      simp only [sortDedupStr, List.foldr] at ih ⊢
      rw [mem_insertSortedStr, ih]
      simp

/-! ### Pairing-builder lemmas -/

/-- Every section chosen by `sortedSections` names a group that is
actually present. -/
theorem sortedSections_mem {groups : List (Nat × String)} {y : Nat} {s : String}
    (h : s ∈ sortedSections groups y) : (y, s) ∈ groups := by
  rw [sortedSections, mem_sortDedupStr] at h
  obtain ⟨g, hg, hgs⟩ := List.mem_map.1 h
  obtain ⟨hmem, hy⟩ := List.mem_filter.1 hg
  have hy' : g.1 = y := by simpa using hy
  have : g = (y, s) := by
    cases g
    simp_all
  rw [← this]
  exact hmem

/-- Both groups of every built pairing belong to the available set, and
the two years differ.  This is the structural core behind the
no-same-year-bench invariant. -/
theorem build_dynamic_pairings_sound (groups : List (Nat × String)) (years : List Nat) :
    ∀ p ∈ build_dynamic_pairings groups years,
      p.1 ∈ groups ∧ p.2 ∈ groups ∧ p.1.1 ≠ p.2.1 := by
  intro p hp
  simp only [build_dynamic_pairings] at hp
  split at hp
  · simp at hp
  · revert hp
    split
    · next y1 y2 y3 heq =>
      have hpair : List.Pairwise (· < ·) [y1, y2, y3] := heq ▸ pairwise_sortDedupNat years
      rcases List.pairwise_cons.1 hpair with ⟨h1all, hrest⟩
      have h12 : y1 < y2 := h1all y2 (by simp)
      have h13 : y1 < y3 := h1all y3 (by simp)
      have h23 : y2 < y3 := (List.pairwise_cons.1 hrest).1 y3 (by simp)
      intro hp
      split at hp
      · -- preferred cycle, filtered to present pairs
        obtain ⟨hmemc, hpres⟩ := List.mem_filter.1 hp
        have hpres1 : p.1 ∈ groups ∧ p.2 ∈ groups := by
          simpa [Bool.and_eq_true, decide_eq_true_eq] using hpres
        refine ⟨hpres1.1, hpres1.2, ?_⟩
        simp only [List.mem_cons, List.not_mem_nil, or_false] at hmemc
        rcases hmemc with h | h | h | h | h | h <;> (subst h; simp; omega)
      · -- fallback over the year cycle
        refine mem_foldl_append _ (fun q => q.1 ∈ groups ∧ q.2 ∈ groups ∧ q.1.1 ≠ q.2.1)
          _ ?_ _ (by simp) p hp
        intro acc fp hfp
        cases hs1 : sortedSections groups fp.1 with
        | nil => exact ⟨[], by simp [hs1], by simp⟩
        | cons s1 ss1 =>
          cases hs2 : sortedSections groups fp.2 with
          | nil => exact ⟨[], by simp [hs1, hs2], by simp⟩
          | cons s2 ss2 =>
            refine ⟨[((fp.1, s1), (fp.2, s2))], by simp [hs1, hs2], ?_⟩
            intro q hq
            simp only [List.mem_cons, List.not_mem_nil, or_false] at hq
            subst hq
            have hm1 : (fp.1, s1) ∈ groups := sortedSections_mem (hs1 ▸ List.mem_cons_self _ _)
            have hm2 : (fp.2, s2) ∈ groups := sortedSections_mem (hs2 ▸ List.mem_cons_self _ _)
            refine ⟨hm1, hm2, ?_⟩
            simp only [List.mem_cons, List.not_mem_nil, or_false] at hfp
            rcases hfp with h | h | h <;> (subst h; simp; omega)
    · next y1 y2 heq =>
      have hpair : List.Pairwise (· < ·) [y1, y2] := heq ▸ pairwise_sortDedupNat years
      have h12 : y1 < y2 := (List.pairwise_cons.1 hpair).1 y2 (by simp)
      intro hp
      refine mem_foldl_append _ (fun q => q.1 ∈ groups ∧ q.2 ∈ groups ∧ q.1.1 ≠ q.2.1)
        _ ?_ _ (by simp) p hp
      intro acc s1 hs1
      refine ⟨(sortedSections groups y2).map (fun s2 => ((y1, s1), (y2, s2))), rfl, ?_⟩
      intro q hq
      obtain ⟨s2, hs2, hq⟩ := List.mem_map.1 hq
      subst hq
      exact ⟨sortedSections_mem hs1, sortedSections_mem hs2, by simp; omega⟩
    · intro hp; simp at hp

/-- C3: `build_dynamic_pairings` equals the specified reference
definition whenever its two set arguments are consistent (the years set
is the set of years of the available groups, which is how every caller
invokes it): the fixed filtered 6-pairing cycle with the
first-section fallback for 3 years, the sorted Cartesian product for 2
years, and the empty list for 1 year or none. -/
theorem C3_build_dynamic_pairings_matches_reference
    (groups : List (Nat × String)) (years : List Nat)
    (h : sortDedupNat years = sortDedupNat (groups.map Prod.fst)) :
    build_dynamic_pairings groups years = build_dynamic_pairings_spec groups := by
  by_cases hg : groups = []
  · subst hg
    have hy : sortDedupNat years = [] := by simpa [sortDedupNat] using h
    simp [build_dynamic_pairings, build_dynamic_pairings_spec, sortDedupNat, hy]
  · have hy : years ≠ [] := by
      intro hy
      subst hy
      have : groups.map Prod.fst = [] :=
        sortDedupNat_eq_nil_iff.1 (by simpa [sortDedupNat] using h.symm)
      exact hg (List.map_eq_nil_iff.1 this)
    rw [build_dynamic_pairings, build_dynamic_pairings_spec, if_neg (by simp [hg, hy]), h]

/-- Witness for C3 on the spec's own scenario: years `{1, 2}`, sections
`{A, B}` for year 1 and `{A}` for year 2. -/
theorem C3_build_dynamic_pairings_matches_reference_witness :
    sortDedupNat [1, 1, 2] =
      sortDedupNat (([(1, "A"), (1, "B"), (2, "A")] : List (Nat × String)).map Prod.fst) ∧
    build_dynamic_pairings [(1, "A"), (1, "B"), (2, "A")] [1, 1, 2] =
      build_dynamic_pairings_spec [(1, "A"), (1, "B"), (2, "A")] :=
  ⟨by decide, C3_build_dynamic_pairings_matches_reference _ _ (by decide)⟩

/-! ### Lemmas about the two-group bench loop -/

/-- Combined specification of `allocate_room_seats_go`: the final counts
never decrease, and the left (resp. right) records carry exactly the
first `final − initial` students of group 1 (resp. group 2), in queue
order. -/
theorem allocate_go_spec (allocId roomIdx rows : Nat) (bt : String) (l1 l2 : Nat) :
    ∀ (fuel : Nat) (g1 g2 : List Student) (c1 c2 bench_no : Nat),
      c1 ≤ (allocate_room_seats_go allocId roomIdx rows bt l1 l2 g1 g2 c1 c2 bench_no fuel).2.1 ∧
      c2 ≤ (allocate_room_seats_go allocId roomIdx rows bt l1 l2 g1 g2 c1 c2 bench_no fuel).2.2 ∧
      (((allocate_room_seats_go allocId roomIdx rows bt l1 l2 g1 g2 c1 c2 bench_no fuel).1.filter
          (fun r => r.seat_pos = SeatPos.left)).map (fun r => r.student)) =
        g1.take ((allocate_room_seats_go allocId roomIdx rows bt l1 l2 g1 g2 c1 c2 bench_no fuel).2.1 - c1) ∧
      (((allocate_room_seats_go allocId roomIdx rows bt l1 l2 g1 g2 c1 c2 bench_no fuel).1.filter
          (fun r => r.seat_pos = SeatPos.right)).map (fun r => r.student)) =
        g2.take ((allocate_room_seats_go allocId roomIdx rows bt l1 l2 g1 g2 c1 c2 bench_no fuel).2.2 - c2) := by
  intro fuel
  induction fuel with
  | zero => intro g1 g2 c1 c2 b; simp [allocate_room_seats_go]
  | succ f ih =>
      intro g1 g2 c1 c2 b
      by_cases hstop : l1 ≤ c1 ∧ l2 ≤ c2
      · simp [allocate_room_seats_go, hstop]
      · cases g1 with
        | nil =>
            cases g2 with
            | nil =>
                obtain ⟨ih1, ih2, ih3, ih4⟩ := ih [] [] c1 c2 (b + 1)
                simp only [allocate_room_seats_go, if_neg hstop]
                exact ⟨ih1, ih2, by simpa using ih3, by simpa using ih4⟩
            | cons s2 r2 =>
                by_cases hc2 : c2 < l2
                · obtain ⟨ih1, ih2, ih3, ih4⟩ := ih [] r2 c1 (c2 + 1) (b + 1)
                  simp only [allocate_room_seats_go, if_neg hstop, hc2, if_true, mkSeat]
                  refine ⟨ih1, by omega, ?_, ?_⟩
                  · simpa using ih3
                  · have hle : c2 + 1 ≤ (allocate_room_seats_go allocId roomIdx rows bt l1 l2
                        [] r2 c1 (c2 + 1) (b + 1) f).2.2 := ih2
                    have harith : (allocate_room_seats_go allocId roomIdx rows bt l1 l2
                        [] r2 c1 (c2 + 1) (b + 1) f).2.2 - c2 =
                        ((allocate_room_seats_go allocId roomIdx rows bt l1 l2
                        [] r2 c1 (c2 + 1) (b + 1) f).2.2 - (c2 + 1)) + 1 := by omega
                    simp only [harith, List.take_succ_cons]
                    simpa using ih4
                · obtain ⟨ih1, ih2, ih3, ih4⟩ := ih [] (s2 :: r2) c1 c2 (b + 1)
                  simp only [allocate_room_seats_go, if_neg hstop, hc2, if_false]
                  exact ⟨ih1, ih2, by simpa using ih3, by simpa using ih4⟩
        | cons s1 r1 =>
            by_cases hc1 : c1 < l1
            · cases g2 with
              | nil =>
                  obtain ⟨ih1, ih2, ih3, ih4⟩ := ih r1 [] (c1 + 1) c2 (b + 1)
                  simp only [allocate_room_seats_go, if_neg hstop, hc1, if_true, mkSeat]
                  refine ⟨by omega, ih2, ?_, ?_⟩
                  · have harith : (allocate_room_seats_go allocId roomIdx rows bt l1 l2
                        r1 [] (c1 + 1) c2 (b + 1) f).2.1 - c1 =
                        ((allocate_room_seats_go allocId roomIdx rows bt l1 l2
                        r1 [] (c1 + 1) c2 (b + 1) f).2.1 - (c1 + 1)) + 1 := by
                      have := ih1; omega
                    simp only [harith, List.take_succ_cons]
                    simpa using ih3
                  · simpa using ih4
              | cons s2 r2 =>
                  by_cases hc2 : c2 < l2
                  · obtain ⟨ih1, ih2, ih3, ih4⟩ := ih r1 r2 (c1 + 1) (c2 + 1) (b + 1)
                    simp only [allocate_room_seats_go, if_neg hstop, hc1, hc2, if_true, mkSeat]
                    refine ⟨by omega, by omega, ?_, ?_⟩
                    · have harith : (allocate_room_seats_go allocId roomIdx rows bt l1 l2
                          r1 r2 (c1 + 1) (c2 + 1) (b + 1) f).2.1 - c1 =
                          ((allocate_room_seats_go allocId roomIdx rows bt l1 l2
                          r1 r2 (c1 + 1) (c2 + 1) (b + 1) f).2.1 - (c1 + 1)) + 1 := by
                        have := ih1; omega
                      simp only [harith, List.take_succ_cons]
                      simpa using ih3
                    · have harith : (allocate_room_seats_go allocId roomIdx rows bt l1 l2
                          r1 r2 (c1 + 1) (c2 + 1) (b + 1) f).2.2 - c2 =
                          ((allocate_room_seats_go allocId roomIdx rows bt l1 l2
                          r1 r2 (c1 + 1) (c2 + 1) (b + 1) f).2.2 - (c2 + 1)) + 1 := by
                        have := ih2; omega
                      simp only [harith, List.take_succ_cons]
                      simpa using ih4
                  · obtain ⟨ih1, ih2, ih3, ih4⟩ := ih r1 (s2 :: r2) (c1 + 1) c2 (b + 1)
                    simp only [allocate_room_seats_go, if_neg hstop, hc1, hc2, if_true, if_false,
                      mkSeat]
                    refine ⟨by omega, ih2, ?_, ?_⟩
                    · have harith : (allocate_room_seats_go allocId roomIdx rows bt l1 l2
                          r1 (s2 :: r2) (c1 + 1) c2 (b + 1) f).2.1 - c1 =
                          ((allocate_room_seats_go allocId roomIdx rows bt l1 l2
                          r1 (s2 :: r2) (c1 + 1) c2 (b + 1) f).2.1 - (c1 + 1)) + 1 := by
                        have := ih1; omega
                      simp only [harith, List.take_succ_cons]
                      simpa using ih3
                    · simpa using ih4
            · cases g2 with
              | nil =>
                  obtain ⟨ih1, ih2, ih3, ih4⟩ := ih (s1 :: r1) [] c1 c2 (b + 1)
                  simp only [allocate_room_seats_go, if_neg hstop, hc1, if_false]
                  exact ⟨ih1, ih2, by simpa using ih3, by simpa using ih4⟩
              | cons s2 r2 =>
                  by_cases hc2 : c2 < l2
                  · obtain ⟨ih1, ih2, ih3, ih4⟩ := ih (s1 :: r1) r2 c1 (c2 + 1) (b + 1)
                    simp only [allocate_room_seats_go, if_neg hstop, hc1, hc2, if_true, if_false,
                      mkSeat]
                    refine ⟨ih1, by omega, ?_, ?_⟩
                    · simpa using ih3
                    · have harith : (allocate_room_seats_go allocId roomIdx rows bt l1 l2
                          (s1 :: r1) r2 c1 (c2 + 1) (b + 1) f).2.2 - c2 =
                          ((allocate_room_seats_go allocId roomIdx rows bt l1 l2
                          (s1 :: r1) r2 c1 (c2 + 1) (b + 1) f).2.2 - (c2 + 1)) + 1 := by
                        have := ih2; omega
                      simp only [harith, List.take_succ_cons]
                      simpa using ih4
                  · obtain ⟨ih1, ih2, ih3, ih4⟩ := ih (s1 :: r1) (s2 :: r2) c1 c2 (b + 1)
                    simp only [allocate_room_seats_go, if_neg hstop, hc1, hc2, if_false]
                    exact ⟨ih1, ih2, by simpa using ih3, by simpa using ih4⟩

/-- Every record of the two-group bench loop carries the call's room
index, a bench number within the visited window, and a student drawn
from the matching group's queue. -/
theorem allocate_go_mem (allocId roomIdx rows : Nat) (bt : String) (l1 l2 : Nat) :
    ∀ (fuel : Nat) (g1 g2 : List Student) (c1 c2 bench_no : Nat),
      ∀ r ∈ (allocate_room_seats_go allocId roomIdx rows bt l1 l2 g1 g2 c1 c2 bench_no fuel).1,
        r.roomIdx = roomIdx ∧ bench_no ≤ r.bench_no ∧ r.bench_no < bench_no + fuel ∧
        (r.seat_pos = SeatPos.left → r.student ∈ g1) ∧
        (r.seat_pos = SeatPos.right → r.student ∈ g2) := by
  intro fuel
  induction fuel with
  | zero => intro g1 g2 c1 c2 b r hr; simp [allocate_room_seats_go] at hr
  | succ f ih =>
      intro g1 g2 c1 c2 b r hr
      by_cases hstop : l1 ≤ c1 ∧ l2 ≤ c2
      · simp [allocate_room_seats_go, hstop] at hr
      · have hnext : ∀ (g1' g2' : List Student) (c1' c2' : Nat),
            g1' = g1 ∨ (∃ s t, g1 = s :: t ∧ g1' = t) →
            g2' = g2 ∨ (∃ s t, g2 = s :: t ∧ g2' = t) →
            r ∈ (allocate_room_seats_go allocId roomIdx rows bt l1 l2
              g1' g2' c1' c2' (b + 1) f).1 →
            r.roomIdx = roomIdx ∧ b ≤ r.bench_no ∧ r.bench_no < b + (f + 1) ∧
            (r.seat_pos = SeatPos.left → r.student ∈ g1) ∧
            (r.seat_pos = SeatPos.right → r.student ∈ g2) := by
          intro g1' g2' c1' c2' hg1 hg2 hmem
          obtain ⟨h1, h2, h3, h4, h5⟩ := ih g1' g2' c1' c2' (b + 1) r hmem
          refine ⟨h1, by omega, by omega, ?_, ?_⟩
          · intro hL
            rcases hg1 with rfl | ⟨s, t, rfl, rfl⟩
            · exact h4 hL
            · exact List.mem_cons_of_mem s (h4 hL)
          · intro hR
            rcases hg2 with rfl | ⟨s, t, rfl, rfl⟩
            · exact h5 hR
            · exact List.mem_cons_of_mem s (h5 hR)
        cases g1 with
        | nil =>
            cases g2 with
            | nil =>
                simp only [allocate_room_seats_go, if_neg hstop, List.nil_append] at hr
                exact hnext [] [] c1 c2 (Or.inl rfl) (Or.inl rfl) hr
            | cons s2 r2 =>
                by_cases hc2 : c2 < l2
                · simp only [allocate_room_seats_go, if_neg hstop, hc2, if_true,
                    List.nil_append, List.cons_append, List.mem_cons] at hr
                  rcases hr with rfl | hr
                  · simp [mkSeat]
                  · exact hnext [] r2 c1 (c2 + 1)
                      (Or.inl rfl) (Or.inr ⟨s2, r2, rfl, rfl⟩) hr
                · simp only [allocate_room_seats_go, if_neg hstop, hc2, if_false,
                    List.nil_append] at hr
                  exact hnext [] (s2 :: r2) c1 c2 (Or.inl rfl) (Or.inl rfl) hr
        | cons s1 r1 =>
            by_cases hc1 : c1 < l1
            · cases g2 with
              | nil =>
                  simp only [allocate_room_seats_go, if_neg hstop, hc1, if_true,
                    List.nil_append, List.cons_append, List.mem_cons] at hr
                  rcases hr with rfl | hr
                  · simp [mkSeat]
                  · exact hnext r1 [] (c1 + 1) c2
                      (Or.inr ⟨s1, r1, rfl, rfl⟩) (Or.inl rfl) hr
              | cons s2 r2 =>
                  by_cases hc2 : c2 < l2
                  · simp only [allocate_room_seats_go, if_neg hstop, hc1, hc2, if_true,
                      List.nil_append, List.cons_append, List.singleton_append,
                      List.mem_cons] at hr
                    rcases hr with rfl | rfl | hr
                    · simp [mkSeat]
                    · simp [mkSeat]
                    · exact hnext r1 r2 (c1 + 1) (c2 + 1)
                        (Or.inr ⟨s1, r1, rfl, rfl⟩) (Or.inr ⟨s2, r2, rfl, rfl⟩) hr
                  · simp only [allocate_room_seats_go, if_neg hstop, hc1, hc2, if_true,
                      if_false, List.nil_append, List.cons_append, List.append_nil,
                      List.mem_cons] at hr
                    rcases hr with rfl | hr
                    · simp [mkSeat]
                    · exact hnext r1 (s2 :: r2) (c1 + 1) c2
                        (Or.inr ⟨s1, r1, rfl, rfl⟩) (Or.inl rfl) hr
            · cases g2 with
              | nil =>
                  simp only [allocate_room_seats_go, if_neg hstop, hc1, if_false,
                    List.nil_append] at hr
                  exact hnext (s1 :: r1) [] c1 c2 (Or.inl rfl) (Or.inl rfl) hr
              | cons s2 r2 =>
                  by_cases hc2 : c2 < l2
                  · simp only [allocate_room_seats_go, if_neg hstop, hc1, hc2, if_true,
                      if_false, List.nil_append, List.cons_append, List.mem_cons] at hr
                    rcases hr with rfl | hr
                    · simp [mkSeat]
                    · exact hnext (s1 :: r1) r2 c1 (c2 + 1)
                        (Or.inl rfl) (Or.inr ⟨s2, r2, rfl, rfl⟩) hr
                  · simp only [allocate_room_seats_go, if_neg hstop, hc1, hc2, if_false,
                      List.nil_append] at hr
                    exact hnext (s1 :: r1) (s2 :: r2) c1 c2 (Or.inl rfl) (Or.inl rfl) hr

/-- Records of the two-group bench loop occur in strictly increasing
bench order, except that the left and right seats of one bench are
adjacent (left first).  In particular no bench gets two left or two
right records. -/
theorem allocate_go_pairwise (allocId roomIdx rows : Nat) (bt : String) (l1 l2 : Nat) :
    ∀ (fuel : Nat) (g1 g2 : List Student) (c1 c2 bench_no : Nat),
      List.Pairwise (fun x y => x.bench_no < y.bench_no ∨
          (x.bench_no = y.bench_no ∧ x.seat_pos = SeatPos.left ∧ y.seat_pos = SeatPos.right))
        (allocate_room_seats_go allocId roomIdx rows bt l1 l2 g1 g2 c1 c2 bench_no fuel).1 := by
  intro fuel
  induction fuel with
  | zero => intro g1 g2 c1 c2 b; simp [allocate_room_seats_go]
  | succ f ih =>
      intro g1 g2 c1 c2 b
      by_cases hstop : l1 ≤ c1 ∧ l2 ≤ c2
      · simp [allocate_room_seats_go, hstop]
      · have htail : ∀ (g1' g2' : List Student) (c1' c2' : Nat),
            ∀ r ∈ (allocate_room_seats_go allocId roomIdx rows bt l1 l2
              g1' g2' c1' c2' (b + 1) f).1, b < r.bench_no := by
          intro g1' g2' c1' c2' r hmem
          have h := (allocate_go_mem allocId roomIdx rows bt l1 l2 f g1' g2' c1' c2'
            (b + 1) r hmem).2.1
          omega
        cases g1 with
        | nil =>
            cases g2 with
            | nil =>
                simp only [allocate_room_seats_go, if_neg hstop, List.nil_append]
                exact ih [] [] c1 c2 (b + 1)
            | cons s2 r2 =>
                by_cases hc2 : c2 < l2
                · simp only [allocate_room_seats_go, if_neg hstop, hc2, if_true,
                    List.nil_append, List.singleton_append]
                  refine List.pairwise_cons.2 ⟨?_, ih [] r2 c1 (c2 + 1) (b + 1)⟩
                  intro y hy
                  left
                  simpa [mkSeat] using htail _ _ _ _ y hy
                · simp only [allocate_room_seats_go, if_neg hstop, hc2, if_false,
                    List.nil_append]
                  exact ih [] (s2 :: r2) c1 c2 (b + 1)
        | cons s1 r1 =>
            by_cases hc1 : c1 < l1
            · cases g2 with
              | nil =>
                  simp only [allocate_room_seats_go, if_neg hstop, hc1, if_true,
                    List.singleton_append, List.nil_append, List.append_nil]
                  refine List.pairwise_cons.2 ⟨?_, ih r1 [] (c1 + 1) c2 (b + 1)⟩
                  intro y hy
                  left
                  simpa [mkSeat] using htail _ _ _ _ y hy
              | cons s2 r2 =>
                  by_cases hc2 : c2 < l2
                  · simp only [allocate_room_seats_go, if_neg hstop, hc1, hc2, if_true,
                      List.singleton_append, List.cons_append, List.nil_append]
                    refine List.pairwise_cons.2 ⟨?_,
                      List.pairwise_cons.2 ⟨?_, ih r1 r2 (c1 + 1) (c2 + 1) (b + 1)⟩⟩
                    · intro y hy
                      rcases List.mem_cons.1 hy with rfl | hy
                      · right
                        exact ⟨rfl, rfl, rfl⟩
                      · left
                        simpa [mkSeat] using htail _ _ _ _ y hy
                    · intro y hy
                      left
                      simpa [mkSeat] using htail _ _ _ _ y hy
                  · simp only [allocate_room_seats_go, if_neg hstop, hc1, hc2, if_true,
                      if_false, List.singleton_append, List.nil_append, List.append_nil]
                    refine List.pairwise_cons.2 ⟨?_, ih r1 (s2 :: r2) (c1 + 1) c2 (b + 1)⟩
                    intro y hy
                    left
                    simpa [mkSeat] using htail _ _ _ _ y hy
            · cases g2 with
              | nil =>
                  simp only [allocate_room_seats_go, if_neg hstop, hc1, if_false,
                    List.nil_append]
                  exact ih (s1 :: r1) [] c1 c2 (b + 1)
              | cons s2 r2 =>
                  by_cases hc2 : c2 < l2
                  · simp only [allocate_room_seats_go, if_neg hstop, hc1, hc2, if_true,
                      if_false, List.nil_append, List.singleton_append]
                    refine List.pairwise_cons.2 ⟨?_, ih (s1 :: r1) r2 c1 (c2 + 1) (b + 1)⟩
                    intro y hy
                    left
                    simpa [mkSeat] using htail _ _ _ _ y hy
                  · simp only [allocate_room_seats_go, if_neg hstop, hc1, hc2, if_false,
                      List.nil_append]
                    exact ih (s1 :: r1) (s2 :: r2) c1 c2 (b + 1)

/-- The two-group bench loop emits at most two records per bench
visited. -/
theorem allocate_go_length (allocId roomIdx rows : Nat) (bt : String) (l1 l2 : Nat) :
    ∀ (fuel : Nat) (g1 g2 : List Student) (c1 c2 bench_no : Nat),
      (allocate_room_seats_go allocId roomIdx rows bt l1 l2 g1 g2 c1 c2 bench_no fuel).1.length ≤
        2 * fuel := by
  intro fuel
  induction fuel with
  | zero => intro g1 g2 c1 c2 b; simp [allocate_room_seats_go]
  | succ f ih =>
      intro g1 g2 c1 c2 b
      by_cases hstop : l1 ≤ c1 ∧ l2 ≤ c2
      · simp [allocate_room_seats_go, hstop]
      · cases g1 with
        | nil =>
            cases g2 with
            | nil =>
                simp only [allocate_room_seats_go, if_neg hstop, List.nil_append]
                have := ih [] [] c1 c2 (b + 1)
                omega
            | cons s2 r2 =>
                by_cases hc2 : c2 < l2
                · simp only [allocate_room_seats_go, if_neg hstop, hc2, if_true,
                    List.nil_append, List.singleton_append, List.length_cons]
                  have := ih [] r2 c1 (c2 + 1) (b + 1)
                  omega
                · simp only [allocate_room_seats_go, if_neg hstop, hc2, if_false,
                    List.nil_append]
                  have := ih [] (s2 :: r2) c1 c2 (b + 1)
                  omega
        | cons s1 r1 =>
            by_cases hc1 : c1 < l1
            · cases g2 with
              | nil =>
                  simp only [allocate_room_seats_go, if_neg hstop, hc1, if_true,
                    List.singleton_append, List.nil_append, List.append_nil, List.length_cons]
                  have := ih r1 [] (c1 + 1) c2 (b + 1)
                  omega
              | cons s2 r2 =>
                  by_cases hc2 : c2 < l2
                  · simp only [allocate_room_seats_go, if_neg hstop, hc1, hc2, if_true,
                      List.singleton_append, List.cons_append, List.nil_append,
                      List.length_cons]
                    have := ih r1 r2 (c1 + 1) (c2 + 1) (b + 1)
                    omega
                  · simp only [allocate_room_seats_go, if_neg hstop, hc1, hc2, if_true,
                      if_false, List.singleton_append, List.nil_append, List.append_nil,
                      List.length_cons]
                    have := ih r1 (s2 :: r2) (c1 + 1) c2 (b + 1)
                    omega
            · cases g2 with
              | nil =>
                  simp only [allocate_room_seats_go, if_neg hstop, hc1, if_false,
                    List.nil_append]
                  have := ih (s1 :: r1) [] c1 c2 (b + 1)
                  omega
              | cons s2 r2 =>
                  by_cases hc2 : c2 < l2
                  · simp only [allocate_room_seats_go, if_neg hstop, hc1, hc2, if_true,
                      if_false, List.nil_append, List.singleton_append, List.length_cons]
                    have := ih (s1 :: r1) r2 c1 (c2 + 1) (b + 1)
                    omega
                  · simp only [allocate_room_seats_go, if_neg hstop, hc1, hc2, if_false,
                      List.nil_append]
                    have := ih (s1 :: r1) (s2 :: r2) c1 c2 (b + 1)
                    omega

/-! ### Lemmas about the single-year bench loop -/

/-- Specification of `allocate_room_seats_single_year_go`: the used
count never decreases and the records carry exactly the first
`final − initial` students of the queue, in order. -/
theorem allocate_sy_spec (allocId roomIdx rows : Nat) (bt : String) (rl : Option Nat) :
    ∀ (fuel : Nat) (dq : List Student) (used bench_no : Nat),
      used ≤ (allocate_room_seats_single_year_go allocId roomIdx rows bt rl
        dq used bench_no fuel).2 ∧
      (allocate_room_seats_single_year_go allocId roomIdx rows bt rl
        dq used bench_no fuel).1.map (fun r => r.student) =
        dq.take ((allocate_room_seats_single_year_go allocId roomIdx rows bt rl
          dq used bench_no fuel).2 - used) := by
  intro fuel
  induction fuel with
  | zero => intro dq used b; simp [allocate_room_seats_single_year_go]
  | succ f ih =>
      intro dq used b
      cases dq with
      | nil => simp [allocate_room_seats_single_year_go]
      | cons s rest =>
          by_cases hlim : reachedLimit rl used = true
          · simp [allocate_room_seats_single_year_go, hlim]
          · obtain ⟨ih1, ih2⟩ := ih rest (used + 1) (b + 1)
            simp only [allocate_room_seats_single_year_go, hlim, Bool.false_eq_true,
              if_false, List.map_cons]
            refine ⟨by omega, ?_⟩
            have harith : (allocate_room_seats_single_year_go allocId roomIdx rows bt rl
                rest (used + 1) (b + 1) f).2 - used =
                ((allocate_room_seats_single_year_go allocId roomIdx rows bt rl
                rest (used + 1) (b + 1) f).2 - (used + 1)) + 1 := by omega
            simp only [harith, List.take_succ_cons, mkSeat]
            simpa using ih2

/-- Every record of the single-year bench loop is a left seat in the
call's room, within the visited bench window, occupied by a student of
the queue. -/
theorem allocate_sy_mem (allocId roomIdx rows : Nat) (bt : String) (rl : Option Nat) :
    ∀ (fuel : Nat) (dq : List Student) (used bench_no : Nat),
      ∀ r ∈ (allocate_room_seats_single_year_go allocId roomIdx rows bt rl
        dq used bench_no fuel).1,
        r.roomIdx = roomIdx ∧ r.seat_pos = SeatPos.left ∧
        bench_no ≤ r.bench_no ∧ r.bench_no < bench_no + fuel ∧ r.student ∈ dq := by
  intro fuel
  induction fuel with
  | zero => intro dq used b r hr; simp [allocate_room_seats_single_year_go] at hr
  | succ f ih =>
      intro dq used b r hr
      cases dq with
      | nil => simp [allocate_room_seats_single_year_go] at hr
      | cons s rest =>
          by_cases hlim : reachedLimit rl used = true
          · simp [allocate_room_seats_single_year_go, hlim] at hr
          · simp only [allocate_room_seats_single_year_go, hlim, Bool.false_eq_true,
              if_false, List.mem_cons] at hr
            rcases hr with rfl | hr
            · simp [mkSeat]
            · obtain ⟨h1, h2, h3, h4, h5⟩ := ih rest (used + 1) (b + 1) r hr
              exact ⟨h1, h2, by omega, by omega, List.mem_cons_of_mem s h5⟩

/-- Single-year records occur in strictly increasing bench order. -/
theorem allocate_sy_pairwise (allocId roomIdx rows : Nat) (bt : String) (rl : Option Nat) :
    ∀ (fuel : Nat) (dq : List Student) (used bench_no : Nat),
      List.Pairwise (fun x y => x.bench_no < y.bench_no)
        (allocate_room_seats_single_year_go allocId roomIdx rows bt rl
          dq used bench_no fuel).1 := by
  intro fuel
  induction fuel with
  | zero => intro dq used b; simp [allocate_room_seats_single_year_go]
  | succ f ih =>
      intro dq used b
      cases dq with
      | nil => simp [allocate_room_seats_single_year_go]
      | cons s rest =>
          by_cases hlim : reachedLimit rl used = true
          · simp [allocate_room_seats_single_year_go, hlim]
          · simp only [allocate_room_seats_single_year_go, hlim, Bool.false_eq_true, if_false]
            refine List.pairwise_cons.2 ⟨?_, ih rest (used + 1) (b + 1)⟩
            intro y hy
            have h := (allocate_sy_mem allocId roomIdx rows bt rl f rest (used + 1)
              (b + 1) y hy).2.2.1
            simp only [mkSeat]
            omega

/-- The single-year bench loop emits at most one record per bench
visited. -/
theorem allocate_sy_length (allocId roomIdx rows : Nat) (bt : String) (rl : Option Nat) :
    ∀ (fuel : Nat) (dq : List Student) (used bench_no : Nat),
      (allocate_room_seats_single_year_go allocId roomIdx rows bt rl
        dq used bench_no fuel).1.length ≤ fuel := by
  intro fuel
  induction fuel with
  | zero => intro dq used b; simp [allocate_room_seats_single_year_go]
  | succ f ih =>
      intro dq used b
      cases dq with
      | nil => simp [allocate_room_seats_single_year_go]
      | cons s rest =>
          by_cases hlim : reachedLimit rl used = true
          · simp [allocate_room_seats_single_year_go, hlim]
          · simp only [allocate_room_seats_single_year_go, hlim, Bool.false_eq_true,
              if_false, List.length_cons]
            have := ih rest (used + 1) (b + 1)
            omega

/-! ### State-level infrastructure -/

/-- Select one half-queue of a group. -/
def halfOf (st : AllocState) (k : Nat × String) : Half → List Student
  | Half.first => (st.halves k).1
  | Half.second => (st.halves k).2

/-- All students still queued, across every group and both halves. -/
def flattenState (st : AllocState) : List Student :=
  (st.keys.map (fun k => (st.halves k).1 ++ (st.halves k).2)).flatten

/-- The run invariant: group keys are distinct, keys outside the dict
hold empty queues, and every queued student's `(year, section)` matches
its group key. -/
structure Inv (st : AllocState) : Prop where
  nodup : st.keys.Nodup
  outside : ∀ k, k ∉ st.keys → st.halves k = ([], [])
  fields1 : ∀ k s, s ∈ (st.halves k).1 → s.year = k.1 ∧ s.sec = k.2
  fields2 : ∀ k s, s ∈ (st.halves k).2 → s.year = k.1 ∧ s.sec = k.2

theorem totalRemaining_eq_length_flatten (st : AllocState) :
    totalRemaining st = (flattenState st).length := by
  simp only [totalRemaining, flattenState, List.length_flatten, List.map_map]
  congr 1
  refine List.map_congr_left (fun k _ => ?_)
  simp [remainingCount]

theorem mem_availableGroups {st : AllocState} {k : Nat × String} :
    k ∈ availableGroups st ↔ k ∈ st.keys ∧ 0 < remainingCount st k := by
  simp [availableGroups, List.mem_filter]

theorem mem_insertKey {x a : Nat × String} {l : List (Nat × String)} :
    a ∈ insertKey x l ↔ a = x ∨ a ∈ l := by
  induction l with
  | nil => simp [insertKey]
  | cons y ys ih =>
      simp only [insertKey]
      split
      · simp
      · simp only [List.mem_cons, ih]
        tauto

theorem mem_sortKeys {a : Nat × String} {l : List (Nat × String)} :
    a ∈ sortKeys l ↔ a ∈ l := by
  induction l with
  | nil => simp [sortKeys]
  | cons y ys ih =>
      simp only [sortKeys, List.foldr] at ih ⊢
      rw [mem_insertKey, ih]
      simp

theorem sortKeys_eq_nil_iff {l : List (Nat × String)} : sortKeys l = [] ↔ l = [] := by
  cases l with
  | nil => simp [sortKeys]
  | cons y ys =>
      constructor
      · intro h
        have : y ∈ sortKeys (y :: ys) := mem_sortKeys.2 (by simp)
        rw [h] at this
        simp at this
      · intro h; cases h

/-- When the group search succeeds, the selected group is in the order
list and still has students. -/
theorem find_next_group_sound (rc : (Nat × String) → Nat) (group_order : List (Nat × String))
    (hne : group_order ≠ []) {g : Nat × String} :
    ∀ (tries gidx : Nat), (find_next_group rc group_order gidx tries).1 = some g →
      g ∈ group_order ∧ 0 < rc g := by
  intro tries
  induction tries with
  | zero => intro gidx h; simp [find_next_group] at h
  | succ t ih =>
      intro gidx h
      by_cases hc : 0 < rc (group_order.getD (gidx % group_order.length) (0, ""))
      · simp only [find_next_group, hc, if_true, Option.some.injEq] at h
        subst h
        refine ⟨?_, hc⟩
        have hlen : gidx % group_order.length < group_order.length :=
          Nat.mod_lt _ (by cases group_order with
            | nil => exact absurd rfl hne
            | cons a b => simp)
        rw [List.getD_eq_getElem _ _ hlen]
        exact List.getElem_mem _
      · simp only [find_next_group, hc, if_false] at h
        exact ih (gidx + 1) h

/-- When the pairing search succeeds, the selected pairing is one of the
built pairings and both its groups still have students. -/
theorem find_valid_pairing_sound (rc : (Nat × String) → Nat) (pairings : List GPair)
    (hne : pairings ≠ []) {res : Nat × GPair} :
    ∀ (tries i pidx : Nat), find_valid_pairing rc pairings pidx i tries = some res →
      res.2 ∈ pairings ∧ 0 < rc res.2.1 ∧ 0 < rc res.2.2 := by
  intro tries
  induction tries with
  | zero => intro i pidx h; simp [find_valid_pairing] at h
  | succ t ih =>
      intro i pidx h
      have hlen : (pidx + i) % pairings.length < pairings.length :=
        Nat.mod_lt _ (by cases pairings with
          | nil => exact absurd rfl hne
          | cons a b => simp)
      by_cases hc : 0 < rc (pairings.getD ((pidx + i) % pairings.length)
          ((0, "A"), (0, "B"))).1 ∧
          0 < rc (pairings.getD ((pidx + i) % pairings.length) ((0, "A"), (0, "B"))).2
      · simp only [find_valid_pairing] at h
        rw [if_pos hc, Option.some.injEq] at h
        subst h
        refine ⟨?_, hc.1, hc.2⟩
        rw [List.getD_eq_getElem _ _ hlen]
        exact List.getElem_mem _
      · simp only [find_valid_pairing] at h
        rw [if_neg hc] at h
        exact ih (i + 1) pidx h

/-- When no pairing has students on both sides, the round-robin search
fails (for a nonempty pairing list; for the empty list it fails because
it makes zero tries). -/
theorem find_valid_pairing_none (rc : (Nat × String) → Nat) (pairings : List GPair)
    (hne : pairings ≠ [])
    (hall : ∀ p ∈ pairings, ¬(0 < rc p.1 ∧ 0 < rc p.2)) :
    ∀ (tries i pidx : Nat), find_valid_pairing rc pairings pidx i tries = none := by
  intro tries
  induction tries with
  | zero => intro i pidx; simp [find_valid_pairing]
  | succ t ih =>
      intro i pidx
      have hlen : (pidx + i) % pairings.length < pairings.length :=
        Nat.mod_lt _ (by cases pairings with
          | nil => exact absurd rfl hne
          | cons a b => simp)
      have hmem : pairings.getD ((pidx + i) % pairings.length) ((0, "A"), (0, "B")) ∈ pairings := by
        rw [List.getD_eq_getElem _ _ hlen]
        exact List.getElem_mem _
      simp only [find_valid_pairing]
      rw [if_neg (hall _ hmem)]
      exact ih (i + 1) pidx

/-- Case analysis of `pick_half_queue`: it returns a nonempty half with
its tag, or both halves are empty. -/
theorem pick_half_queue_cases (st : AllocState) (k : Nat × String) (pref : Half) :
    (∃ h : Half, (pick_half_queue st k pref).2 = some h ∧
      (pick_half_queue st k pref).1 = halfOf st k h ∧ halfOf st k h ≠ []) ∨
    ((pick_half_queue st k pref).2 = none ∧ (pick_half_queue st k pref).1 = [] ∧
      (st.halves k).1 = [] ∧ (st.halves k).2 = []) := by
  cases pref with
  | first =>
      by_cases h1 : (st.halves k).1 ≠ []
      · exact Or.inl ⟨Half.first, by simp [pick_half_queue, h1], by simp [pick_half_queue, h1, halfOf], by simpa [halfOf] using h1⟩
      · by_cases h2 : (st.halves k).2 ≠ []
        · exact Or.inl ⟨Half.second, by simp [pick_half_queue, h1, h2, Half.toggle],
            by simp [pick_half_queue, h1, h2, halfOf], by simpa [halfOf] using h2⟩
        · refine Or.inr ⟨by simp [pick_half_queue, h1, h2], by simp [pick_half_queue, h1, h2],
            by simpa using h1, by simpa using h2⟩
  | second =>
      by_cases h1 : (st.halves k).2 ≠ []
      · exact Or.inl ⟨Half.second, by simp [pick_half_queue, h1], by simp [pick_half_queue, h1, halfOf], by simpa [halfOf] using h1⟩
      · by_cases h2 : (st.halves k).1 ≠ []
        · exact Or.inl ⟨Half.first, by simp [pick_half_queue, h1, h2, Half.toggle],
            by simp [pick_half_queue, h1, h2, halfOf], by simpa [halfOf] using h2⟩
        · refine Or.inr ⟨by simp [pick_half_queue, h1, h2], by simp [pick_half_queue, h1, h2],
            by simpa using h2, by simpa using h1⟩

theorem consumeHalf_keys (st : AllocState) (k : Nat × String) (h : Option Half) (n : Nat) :
    (consumeHalf st k h n).keys = st.keys := by
  cases h with
  | none => rfl
  | some u => cases u <;> rfl

theorem consumeHalf_nextHalf (st : AllocState) (k : Nat × String) (h : Option Half) (n : Nat) :
    (consumeHalf st k h n).nextHalf = st.nextHalf := by
  cases h with
  | none => rfl
  | some u => cases u <;> rfl

theorem consumeHalf_halves_other (st : AllocState) (k : Nat × String) (u : Half) (n : Nat)
    {k' : Nat × String} (hne : k' ≠ k) :
    (consumeHalf st k (some u) n).halves k' = st.halves k' := by
  cases u <;> simp [consumeHalf, hne]

theorem consumeHalf_halves_self_first (st : AllocState) (k : Nat × String) (n : Nat) :
    (consumeHalf st k (some Half.first) n).halves k =
      ((st.halves k).1.drop n, (st.halves k).2) := by
  simp [consumeHalf]

theorem consumeHalf_halves_self_second (st : AllocState) (k : Nat × String) (n : Nat) :
    (consumeHalf st k (some Half.second) n).halves k =
      ((st.halves k).1, (st.halves k).2.drop n) := by
  simp [consumeHalf]

/-- Consuming preserves the run invariant. -/
theorem Inv.consumeHalf {st : AllocState} (hInv : Inv st) (k : Nat × String)
    (h : Option Half) (n : Nat) : Inv (consumeHalf st k h n) := by
  cases h with
  | none => exact hInv
  | some u =>
      refine ⟨?_, ?_, ?_, ?_⟩
      · rw [consumeHalf_keys]; exact hInv.nodup
      · intro k' hk'
        rw [consumeHalf_keys] at hk'
        by_cases hke : k' = k
        · subst hke
          have hout := hInv.outside k' hk'
          cases u <;> simp [Seating.consumeHalf, hout]
        · cases u <;> simp [Seating.consumeHalf, hke, hInv.outside k' hk']
      · intro k' s hs
        by_cases hke : k' = k
        · subst hke
          cases u <;> simp [Seating.consumeHalf] at hs
          · exact hInv.fields1 k' s (List.mem_of_mem_drop hs)
          · exact hInv.fields1 k' s hs
        · cases u <;> rw [consumeHalf_halves_other st k _ n hke] at hs <;>
            exact hInv.fields1 k' s hs
      · intro k' s hs
        by_cases hke : k' = k
        · subst hke
          cases u <;> simp [Seating.consumeHalf] at hs
          · exact hInv.fields2 k' s hs
          · exact hInv.fields2 k' s (List.mem_of_mem_drop hs)
        · cases u <;> rw [consumeHalf_halves_other st k _ n hke] at hs <;>
            exact hInv.fields2 k' s hs

/-- Updating the queues of one key splits the flattened state into the
removed students plus the flattened updated state. -/
theorem flatten_update_perm (keys : List (Nat × String))
    (f g : (Nat × String) → List Student) (k : Nat × String) (x : List Student)
    (hnd : keys.Nodup) (hk : k ∈ keys)
    (hother : ∀ k' ≠ k, g k' = f k') (hself : (f k).Perm (x ++ g k)) :
    ((keys.map f).flatten).Perm (x ++ (keys.map g).flatten) := by
  induction keys with
  | nil => simp at hk
  | cons t rest ih =>
      rcases List.mem_cons.1 hk with rfl | hk'
      · have hrest : rest.map g = rest.map f := by
          refine List.map_congr_left (fun a ha => ?_)
          have hak : a ≠ k := by
            intro hat
            subst hat
            exact (List.nodup_cons.1 hnd).1 ha
          exact hother a hak
        simp only [List.map_cons, List.flatten_cons, hrest]
        rw [← List.append_assoc]
        exact hself.append_right _
      · have hne : t ≠ k := by
          intro hat
          subst hat
          exact (List.nodup_cons.1 hnd).1 hk'
        have ih' := ih (List.nodup_cons.1 hnd).2 hk'
        simp only [List.map_cons, List.flatten_cons, hother t hne]
        refine (ih'.append_left (f t)).trans ?_
        rw [← List.append_assoc, ← List.append_assoc]
        exact List.perm_append_comm.append_right _

theorem toggleAfterUse_halves (st : AllocState) (k : Nat × String) (h : Option Half) :
    (toggleAfterUse st k h).halves = st.halves := by
  cases h <;> rfl

theorem toggleAfterUse_keys (st : AllocState) (k : Nat × String) (h : Option Half) :
    (toggleAfterUse st k h).keys = st.keys := by
  cases h <;> rfl

theorem consumeHalf_halves_congr {st st' : AllocState} (h : st.halves = st'.halves)
    (k : Nat × String) (oh : Option Half) (n : Nat) :
    (consumeHalf st k oh n).halves = (consumeHalf st' k oh n).halves := by
  cases oh with
  | none => exact h
  | some u => cases u <;> (funext k'; simp [consumeHalf, h])

/-- The room bench-type letter of the iteration. -/
def benchTypeOf (room_idx : Nat) : String :=
  bench_types.getD (room_idx % bench_types.length) "A"

/-- The single-year allocator call made for group `g` drawing from half
`h`, as the driver makes it. -/
def syCall (allocId room_idx : Nat) (room : Room) (st : AllocState) (g : Nat × String)
    (h : Half) : List SeatAssignment × Nat :=
  allocate_room_seats_single_year allocId room_idx room (halfOf st g h)
    (benchTypeOf room_idx) (some (halfOf st g h).length)

/-- The two-group allocator call made for pairing `p` drawing from
halves `h1`, `h2`, as the driver makes it. -/
def prCall (allocId mpg room_idx : Nat) (room : Room) (st : AllocState) (p : GPair)
    (h1 h2 : Half) : List SeatAssignment × Nat × Nat :=
  allocate_room_seats allocId room_idx room (halfOf st p.1 h1) (halfOf st p.2 h2)
    (benchTypeOf room_idx) mpg (some (halfOf st p.1 h1).length)
    (some (halfOf st p.2 h2).length)

/-- Inversion of one room iteration: either the room was skipped with no
records and an unchanged queue state, or a single-year call consumed one
half of one group, or a paired call consumed one half of each group of a
built pairing. -/
theorem roomStep_inversion (allocId mpg : Nat) (st : AllocState) (room : Room) (i : Nat) :
    ((roomStep allocId mpg st room i).1 = [] ∧
     (roomStep allocId mpg st room i).2.halves = st.halves ∧
     (roomStep allocId mpg st room i).2.keys = st.keys) ∨
    (∃ g h, g ∈ st.keys ∧ halfOf st g h ≠ [] ∧
      (roomStep allocId mpg st room i).1 = (syCall allocId i room st g h).1 ∧
      (roomStep allocId mpg st room i).2.halves =
        (consumeHalf st g (some h) (syCall allocId i room st g h).2).halves ∧
      (roomStep allocId mpg st room i).2.keys = st.keys) ∨
    (∃ p h1 h2, p ∈ build_dynamic_pairings (availableGroups st)
        ((availableGroups st).map Prod.fst) ∧
      p.1 ∈ st.keys ∧ p.2 ∈ st.keys ∧
      (roomStep allocId mpg st room i).1 = (prCall allocId mpg i room st p h1 h2).1 ∧
      (roomStep allocId mpg st room i).2.halves =
        (consumeHalf (consumeHalf st p.1 (some h1) (prCall allocId mpg i room st p h1 h2).2.1)
          p.2 (some h2) (prCall allocId mpg i room st p h1 h2).2.2).halves ∧
      (roomStep allocId mpg st room i).2.keys = st.keys) := by
  simp only [roomStep]
  split
  · -- single-year branch
    split
    · exact Or.inl ⟨rfl, rfl, rfl⟩
    · next hgo =>
      split
      · exact Or.inl ⟨rfl, rfl, rfl⟩
      · next selected_group hfound =>
        have hsound := find_next_group_sound (remainingCount st) (sortKeys (availableGroups st))
          hgo (sortKeys (availableGroups st)).length st.groupIdx hfound
        have hmemkeys : selected_group ∈ st.keys :=
          (mem_availableGroups.1 (mem_sortKeys.1 hsound.1)).1
        have hrc : 0 < remainingCount st selected_group := hsound.2
        rcases pick_half_queue_cases st selected_group (st.nextHalf selected_group) with
          ⟨h, hoh, hdq, hne⟩ | ⟨_, _, hfe, hse⟩
        · refine Or.inr (Or.inl ⟨selected_group, h, hmemkeys, hne, ?_, ?_, ?_⟩)
          · rw [hdq, hoh]
            rfl
          · rw [hdq, hoh]
            rw [toggleAfterUse_halves]
            simp only [syCall, benchTypeOf]
            apply consumeHalf_halves_congr
            rfl
          · rw [hoh, toggleAfterUse_keys, consumeHalf_keys]
        · exfalso
          rw [remainingCount, hfe, hse] at hrc
          simp at hrc
  · -- multi-year branch
    split
    · exact Or.inl ⟨rfl, rfl, rfl⟩
    · next selected_idx group1_key group2_key hfind =>
      have hpne : build_dynamic_pairings (availableGroups st)
          ((availableGroups st).map Prod.fst) ≠ [] := by
        intro hnil
        rw [hnil] at hfind
        simp [find_valid_pairing] at hfind
      have hsound := find_valid_pairing_sound (remainingCount st) _ hpne _ 0 st.pairingIdx hfind
      have hmem1 : group1_key ∈ st.keys := by
        have := (build_dynamic_pairings_sound _ _ _ hsound.1).1
        exact (mem_availableGroups.1 this).1
      have hmem2 : group2_key ∈ st.keys := by
        have := (build_dynamic_pairings_sound _ _ _ hsound.1).2.1
        exact (mem_availableGroups.1 this).1
      have hrc1 : 0 < remainingCount st group1_key := hsound.2.1
      have hrc2 : 0 < remainingCount st group2_key := hsound.2.2
      rcases pick_half_queue_cases st group1_key (st.nextHalf group1_key) with
        ⟨h1, hoh1, hdq1, hne1⟩ | ⟨_, _, hfe, hse⟩
      · rcases pick_half_queue_cases st group2_key (st.nextHalf group1_key).toggle with
          ⟨h2, hoh2, hdq2, hne2⟩ | ⟨_, _, hfe2, hse2⟩
        · refine Or.inr (Or.inr ⟨(group1_key, group2_key), h1, h2, hsound.1, hmem1, hmem2,
            ?_, ?_, ?_⟩)
          · rw [hdq1, hoh1, hdq2, hoh2]
            rfl
          · rw [hdq1, hoh1, hdq2, hoh2]
            rw [toggleAfterUse_halves, toggleAfterUse_halves]
            simp only [prCall, benchTypeOf]
            apply consumeHalf_halves_congr
            apply consumeHalf_halves_congr
            rfl
          · rw [hoh1, hoh2, toggleAfterUse_keys, toggleAfterUse_keys, consumeHalf_keys,
              consumeHalf_keys]
        · exfalso
          rw [remainingCount, hfe2, hse2] at hrc2
          simp at hrc2
      · exfalso
        rw [remainingCount, hfe, hse] at hrc1
        simp at hrc1

/-! ### Corollaries about the driver's allocator calls -/

theorem syCall_records_map (allocId i : Nat) (room : Room) (st : AllocState)
    (g : Nat × String) (h : Half) :
    (syCall allocId i room st g h).1.map (fun r => r.student) =
      (halfOf st g h).take (syCall allocId i room st g h).2 := by
  have hs := (allocate_sy_spec allocId i room.rows (benchTypeOf i)
    (some (halfOf st g h).length) (room.rows * room.cols) (halfOf st g h) 0 1).2
  simpa [syCall, allocate_room_seats_single_year] using hs

theorem syCall_mem (allocId i : Nat) (room : Room) (st : AllocState)
    (g : Nat × String) (h : Half) :
    ∀ r ∈ (syCall allocId i room st g h).1,
      r.roomIdx = i ∧ r.seat_pos = SeatPos.left ∧ 1 ≤ r.bench_no ∧
      r.bench_no ≤ room.rows * room.cols ∧ r.student ∈ halfOf st g h := by
  intro r hr
  have hs := allocate_sy_mem allocId i room.rows (benchTypeOf i)
    (some (halfOf st g h).length) (room.rows * room.cols) (halfOf st g h) 0 1 r
    (by simpa [syCall, allocate_room_seats_single_year] using hr)
  exact ⟨hs.1, hs.2.1, hs.2.2.1, by omega, hs.2.2.2.2⟩

theorem syCall_pairwise (allocId i : Nat) (room : Room) (st : AllocState)
    (g : Nat × String) (h : Half) :
    List.Pairwise (fun x y => x.bench_no < y.bench_no) (syCall allocId i room st g h).1 := by
  have hs := allocate_sy_pairwise allocId i room.rows (benchTypeOf i)
    (some (halfOf st g h).length) (room.rows * room.cols) (halfOf st g h) 0 1
  simpa [syCall, allocate_room_seats_single_year] using hs

theorem syCall_length (allocId i : Nat) (room : Room) (st : AllocState)
    (g : Nat × String) (h : Half) :
    (syCall allocId i room st g h).1.length ≤ room.rows * room.cols := by
  have hs := allocate_sy_length allocId i room.rows (benchTypeOf i)
    (some (halfOf st g h).length) (room.rows * room.cols) (halfOf st g h) 0 1
  simpa [syCall, allocate_room_seats_single_year] using hs

theorem prCall_left_map (allocId mpg i : Nat) (room : Room) (st : AllocState)
    (p : GPair) (h1 h2 : Half) :
    ((prCall allocId mpg i room st p h1 h2).1.filter
        (fun r => r.seat_pos = SeatPos.left)).map (fun r => r.student) =
      (halfOf st p.1 h1).take (prCall allocId mpg i room st p h1 h2).2.1 := by
  have hs := (allocate_go_spec allocId i room.rows (benchTypeOf i)
    (min (halfOf st p.1 h1).length (halfOf st p.1 h1).length)
    (min (halfOf st p.2 h2).length (halfOf st p.2 h2).length)
    (room.rows * room.cols) (halfOf st p.1 h1) (halfOf st p.2 h2) 0 0 1).2.2.1
  simpa [prCall, allocate_room_seats] using hs

theorem prCall_right_map (allocId mpg i : Nat) (room : Room) (st : AllocState)
    (p : GPair) (h1 h2 : Half) :
    ((prCall allocId mpg i room st p h1 h2).1.filter
        (fun r => r.seat_pos = SeatPos.right)).map (fun r => r.student) =
      (halfOf st p.2 h2).take (prCall allocId mpg i room st p h1 h2).2.2 := by
  have hs := (allocate_go_spec allocId i room.rows (benchTypeOf i)
    (min (halfOf st p.1 h1).length (halfOf st p.1 h1).length)
    (min (halfOf st p.2 h2).length (halfOf st p.2 h2).length)
    (room.rows * room.cols) (halfOf st p.1 h1) (halfOf st p.2 h2) 0 0 1).2.2.2
  simpa [prCall, allocate_room_seats] using hs

theorem prCall_mem (allocId mpg i : Nat) (room : Room) (st : AllocState)
    (p : GPair) (h1 h2 : Half) :
    ∀ r ∈ (prCall allocId mpg i room st p h1 h2).1,
      r.roomIdx = i ∧ 1 ≤ r.bench_no ∧ r.bench_no ≤ room.rows * room.cols ∧
      (r.seat_pos = SeatPos.left → r.student ∈ halfOf st p.1 h1) ∧
      (r.seat_pos = SeatPos.right → r.student ∈ halfOf st p.2 h2) := by
  intro r hr
  have hs := allocate_go_mem allocId i room.rows (benchTypeOf i)
    (min (halfOf st p.1 h1).length (halfOf st p.1 h1).length)
    (min (halfOf st p.2 h2).length (halfOf st p.2 h2).length)
    (room.rows * room.cols) (halfOf st p.1 h1) (halfOf st p.2 h2) 0 0 1 r
    (by simpa [prCall, allocate_room_seats] using hr)
  exact ⟨hs.1, hs.2.1, by omega, hs.2.2.2.1, hs.2.2.2.2⟩

theorem prCall_pairwise (allocId mpg i : Nat) (room : Room) (st : AllocState)
    (p : GPair) (h1 h2 : Half) :
    List.Pairwise (fun x y => x.bench_no < y.bench_no ∨
        (x.bench_no = y.bench_no ∧ x.seat_pos = SeatPos.left ∧ y.seat_pos = SeatPos.right))
      (prCall allocId mpg i room st p h1 h2).1 := by
  have hs := allocate_go_pairwise allocId i room.rows (benchTypeOf i)
    (min (halfOf st p.1 h1).length (halfOf st p.1 h1).length)
    (min (halfOf st p.2 h2).length (halfOf st p.2 h2).length)
    (room.rows * room.cols) (halfOf st p.1 h1) (halfOf st p.2 h2) 0 0 1
  simpa [prCall, allocate_room_seats] using hs

theorem prCall_length (allocId mpg i : Nat) (room : Room) (st : AllocState)
    (p : GPair) (h1 h2 : Half) :
    (prCall allocId mpg i room st p h1 h2).1.length ≤ 2 * (room.rows * room.cols) := by
  have hs := allocate_go_length allocId i room.rows (benchTypeOf i)
    (min (halfOf st p.1 h1).length (halfOf st p.1 h1).length)
    (min (halfOf st p.2 h2).length (halfOf st p.2 h2).length)
    (room.rows * room.cols) (halfOf st p.1 h1) (halfOf st p.2 h2) 0 0 1
  simpa [prCall, allocate_room_seats] using hs

theorem seat_pos_not_left {r : SeatAssignment} :
    (¬r.seat_pos = SeatPos.left) ↔ r.seat_pos = SeatPos.right := by
  cases hp : r.seat_pos <;> simp

/-- The records of a paired call are, as a multiset, the consumed prefix
of group 1 plus the consumed prefix of group 2. -/
theorem prCall_perm (allocId mpg i : Nat) (room : Room) (st : AllocState)
    (p : GPair) (h1 h2 : Half) :
    ((prCall allocId mpg i room st p h1 h2).1.map (fun r => r.student)).Perm
      ((halfOf st p.1 h1).take (prCall allocId mpg i room st p h1 h2).2.1 ++
       (halfOf st p.2 h2).take (prCall allocId mpg i room st p h1 h2).2.2) := by
  have hpart := List.filter_append_perm (fun r => decide (r.seat_pos = SeatPos.left))
    (prCall allocId mpg i room st p h1 h2).1
  have hnot : (prCall allocId mpg i room st p h1 h2).1.filter
      (fun r => !decide (r.seat_pos = SeatPos.left)) =
      (prCall allocId mpg i room st p h1 h2).1.filter
      (fun r => decide (r.seat_pos = SeatPos.right)) := by
    refine List.filter_congr (fun r _ => ?_)
    cases hp : r.seat_pos <;> simp [hp]
  rw [hnot] at hpart
  have := (hpart.map (fun r => r.student)).symm
  rw [List.map_append, prCall_left_map, prCall_right_map] at this
  exact this

/-! ### Properties of one room iteration -/

theorem Inv_of_eq {st st' : AllocState} (hInv : Inv st) (hk : st'.keys = st.keys)
    (hh : st'.halves = st.halves) : Inv st' := by
  refine ⟨?_, ?_, ?_, ?_⟩
  · rw [hk]; exact hInv.nodup
  · intro k hkm; rw [hk] at hkm; rw [hh]; exact hInv.outside k hkm
  · intro k s hs; rw [hh] at hs; exact hInv.fields1 k s hs
  · intro k s hs; rw [hh] at hs; exact hInv.fields2 k s hs

theorem flattenState_congr {st st' : AllocState} (hk : st'.keys = st.keys)
    (hh : st'.halves = st.halves) : flattenState st' = flattenState st := by
  simp [flattenState, hk, hh]

theorem fields_halfOf {st : AllocState} (hInv : Inv st) {k : Nat × String} {h : Half}
    {s : Student} (hs : s ∈ halfOf st k h) : s.year = k.1 ∧ s.sec = k.2 := by
  cases h with
  | first => exact hInv.fields1 k s hs
  | second => exact hInv.fields2 k s hs

theorem roomStep_Inv (allocId mpg : Nat) {st : AllocState} (room : Room) (i : Nat)
    (hInv : Inv st) : Inv (roomStep allocId mpg st room i).2 := by
  rcases roomStep_inversion allocId mpg st room i with
    ⟨_, hh, hk⟩ | ⟨g, h, _, _, _, hh, hk⟩ | ⟨p, h1, h2, _, _, _, _, hh, hk⟩
  · exact Inv_of_eq hInv hk hh
  · refine Inv_of_eq (hInv.consumeHalf g (some h) _) ?_ hh
    rw [hk, consumeHalf_keys]
  · refine Inv_of_eq (((hInv.consumeHalf p.1 (some h1) _)).consumeHalf p.2 (some h2) _) ?_ hh
    rw [hk, consumeHalf_keys, consumeHalf_keys]

theorem roomStep_keys (allocId mpg : Nat) (st : AllocState) (room : Room) (i : Nat) :
    (roomStep allocId mpg st room i).2.keys = st.keys := by
  rcases roomStep_inversion allocId mpg st room i with
    ⟨_, _, hk⟩ | ⟨_, _, _, _, _, _, hk⟩ | ⟨_, _, _, _, _, _, _, _, hk⟩ <;> exact hk

theorem roomStep_mem (allocId mpg : Nat) (st : AllocState) (room : Room) (i : Nat) :
    ∀ r ∈ (roomStep allocId mpg st room i).1,
      r.roomIdx = i ∧ 1 ≤ r.bench_no ∧ r.bench_no ≤ room.rows * room.cols := by
  intro r hr
  rcases roomStep_inversion allocId mpg st room i with
    ⟨hrecs, _, _⟩ | ⟨g, h, _, _, hrecs, _, _⟩ | ⟨p, h1, h2, _, _, _, hrecs, _, _⟩
  · rw [hrecs] at hr; simp at hr
  · rw [hrecs] at hr
    have := syCall_mem allocId i room st g h r hr
    exact ⟨this.1, this.2.2.1, this.2.2.2.1⟩
  · rw [hrecs] at hr
    have := prCall_mem allocId mpg i room st p h1 h2 r hr
    exact ⟨this.1, this.2.1, this.2.2.1⟩

theorem roomStep_length (allocId mpg : Nat) (st : AllocState) (room : Room) (i : Nat) :
    (roomStep allocId mpg st room i).1.length ≤ 2 * (room.rows * room.cols) := by
  rcases roomStep_inversion allocId mpg st room i with
    ⟨hrecs, _, _⟩ | ⟨g, h, _, _, hrecs, _, _⟩ | ⟨p, h1, h2, _, _, _, hrecs, _, _⟩
  · rw [hrecs]; simp
  · rw [hrecs]
    have := syCall_length allocId i room st g h
    omega
  · rw [hrecs]
    exact prCall_length allocId mpg i room st p h1 h2

theorem roomStep_pairwise (allocId mpg : Nat) (st : AllocState) (room : Room) (i : Nat) :
    List.Pairwise (fun x y => ¬(x.bench_no = y.bench_no ∧ x.seat_pos = y.seat_pos))
      (roomStep allocId mpg st room i).1 := by
  rcases roomStep_inversion allocId mpg st room i with
    ⟨hrecs, _, _⟩ | ⟨g, h, _, _, hrecs, _, _⟩ | ⟨p, h1, h2, _, _, _, hrecs, _, _⟩
  · rw [hrecs]; simp
  · rw [hrecs]
    refine (syCall_pairwise allocId i room st g h).imp ?_
    intro a b hab
    intro hcontra
    omega
  · rw [hrecs]
    refine (prCall_pairwise allocId mpg i room st p h1 h2).imp ?_
    intro a b hab
    rcases hab with hlt | ⟨_, hL, hR⟩
    · intro hcontra; omega
    · intro hcontra
      rw [hcontra.2, hR] at hL
      cases hL


/-- Within one room, a left record and a right record on the same bench
carry students of different academic years. -/
theorem roomStep_year (allocId mpg : Nat) {st : AllocState} (room : Room) (i : Nat)
    (hInv : Inv st) :
    ∀ a ∈ (roomStep allocId mpg st room i).1, ∀ b ∈ (roomStep allocId mpg st room i).1,
      a.seat_pos = SeatPos.left → b.seat_pos = SeatPos.right →
      a.student.year ≠ b.student.year := by
  intro a ha b hb haL hbR
  rcases roomStep_inversion allocId mpg st room i with
    ⟨hrecs, _, _⟩ | ⟨g, h, _, _, hrecs, _, _⟩ | ⟨p, h1, h2, hpmem, _, _, hrecs, _, _⟩
  · rw [hrecs] at ha; simp at ha
  · rw [hrecs] at hb
    have := (syCall_mem allocId i room st g h b hb).2.1
    rw [hbR] at this
    cases this
  · rw [hrecs] at ha hb
    have hsound := build_dynamic_pairings_sound _ _ _ hpmem
    have hmema := (prCall_mem allocId mpg i room st p h1 h2 a ha).2.2.2.1 haL
    have hmemb := (prCall_mem allocId mpg i room st p h1 h2 b hb).2.2.2.2 hbR
    have hya := (fields_halfOf hInv hmema).1
    have hyb := (fields_halfOf hInv hmemb).1
    rw [hya, hyb]
    exact hsound.2.2

/-- One room iteration moves exactly its records' students out of the
queue state. -/
theorem roomStep_flatten (allocId mpg : Nat) {st : AllocState} (room : Room) (i : Nat)
    (hInv : Inv st) :
    (flattenState st).Perm
      ((roomStep allocId mpg st room i).1.map (fun r => r.student) ++
       flattenState (roomStep allocId mpg st room i).2) := by
  have hsplit : ∀ (st' : AllocState) (k : Nat × String) (h : Half) (n : Nat),
      st'.keys.Nodup → k ∈ st'.keys →
      (flattenState st').Perm
        ((halfOf st' k h).take n ++ flattenState (consumeHalf st' k (some h) n)) := by
    intro st' k h n hnd hkm
    have hother : ∀ k' : Nat × String, k' ≠ k →
        (fun q => ((consumeHalf st' k (some h) n).halves q).1 ++
          ((consumeHalf st' k (some h) n).halves q).2) k' =
        (fun q => (st'.halves q).1 ++ (st'.halves q).2) k' := by
      intro k' hk'
      simp only [consumeHalf_halves_other st' k h n hk']
    have hself : ((st'.halves k).1 ++ (st'.halves k).2).Perm
        ((halfOf st' k h).take n ++
          (((consumeHalf st' k (some h) n).halves k).1 ++
           ((consumeHalf st' k (some h) n).halves k).2)) := by
      cases h with
      | first =>
          rw [consumeHalf_halves_self_first]
          simp only [halfOf]
          rw [← List.append_assoc, List.take_append_drop]
      | second =>
          rw [consumeHalf_halves_self_second]
          simp only [halfOf]
          have hTB : (st'.halves k).1 ++ (st'.halves k).2 =
              (st'.halves k).1 ++ ((st'.halves k).2.take n ++ (st'.halves k).2.drop n) := by
            rw [List.take_append_drop]
          rw [hTB, ← List.append_assoc, ← List.append_assoc]
          exact List.perm_append_comm.append_right _
    have hupd := flatten_update_perm st'.keys
      (fun q => (st'.halves q).1 ++ (st'.halves q).2)
      (fun q => ((consumeHalf st' k (some h) n).halves q).1 ++
        ((consumeHalf st' k (some h) n).halves q).2)
      k ((halfOf st' k h).take n) hnd hkm hother hself
    have hkeys : (consumeHalf st' k (some h) n).keys = st'.keys := consumeHalf_keys _ _ _ _
    simp only [flattenState, hkeys]
    exact hupd
  rcases roomStep_inversion allocId mpg st room i with
    ⟨hrecs, hh, hk⟩ | ⟨g, h, hgk, _, hrecs, hh, hk⟩ |
    ⟨p, h1, h2, hpmem, hk1, hk2, hrecs, hh, hk⟩
  · rw [hrecs, flattenState_congr hk hh]
    simp
  · rw [hrecs, syCall_records_map]
    have hfl : flattenState (roomStep allocId mpg st room i).2 =
        flattenState (consumeHalf st g (some h) (syCall allocId i room st g h).2) := by
      refine flattenState_congr ?_ hh
      rw [hk, consumeHalf_keys]
    rw [hfl]
    exact hsplit st g h _ hInv.nodup hgk
  · have hsound := build_dynamic_pairings_sound _ _ _ hpmem
    have hne12 : p.1 ≠ p.2 := by
      intro hq
      exact hsound.2.2 (by rw [hq])
    have hfl : flattenState (roomStep allocId mpg st room i).2 =
        flattenState (consumeHalf
          (consumeHalf st p.1 (some h1) (prCall allocId mpg i room st p h1 h2).2.1)
          p.2 (some h2) (prCall allocId mpg i room st p h1 h2).2.2) := by
      refine flattenState_congr ?_ hh
      rw [hk, consumeHalf_keys, consumeHalf_keys]
    have hstep1 := hsplit st p.1 h1 (prCall allocId mpg i room st p h1 h2).2.1
      hInv.nodup hk1
    have hkm : p.2 ∈ (consumeHalf st p.1 (some h1)
        (prCall allocId mpg i room st p h1 h2).2.1).keys := by
      rw [consumeHalf_keys]; exact hk2
    have hndm : (consumeHalf st p.1 (some h1)
        (prCall allocId mpg i room st p h1 h2).2.1).keys.Nodup := by
      rw [consumeHalf_keys]; exact hInv.nodup
    have hstep2 := hsplit (consumeHalf st p.1 (some h1)
        (prCall allocId mpg i room st p h1 h2).2.1) p.2 h2
      (prCall allocId mpg i room st p h1 h2).2.2 hndm hkm
    have hmid2 : halfOf (consumeHalf st p.1 (some h1)
        (prCall allocId mpg i room st p h1 h2).2.1) p.2 h2 = halfOf st p.2 h2 := by
      have heq := consumeHalf_halves_other st p.1 h1
        (prCall allocId mpg i room st p h1 h2).2.1 (Ne.symm hne12)
      cases h2 <;> simp only [halfOf, heq]
    rw [hmid2] at hstep2
    rw [hrecs, hfl]
    refine hstep1.trans ?_
    refine ((hstep2.append_left ((halfOf st p.1 h1).take
      (prCall allocId mpg i room st p h1 h2).2.1)).trans ?_)
    rw [← List.append_assoc]
    refine List.Perm.append_right _ ?_
    exact (prCall_perm allocId mpg i room st p h1 h2).symm

/-- One room iteration consumes a prefix of at most one half of each
group; filtered to one group's students, its records are that consumed
prefix (so an interleaving of prefixes of the two halves, one of them
empty). -/
theorem roomStep_interleave (allocId mpg : Nat) {st : AllocState} (room : Room) (i : Nat)
    (hInv : Inv st) (k : Nat × String) :
    ∃ n1 n2,
      ((roomStep allocId mpg st room i).2.halves k).1 = (st.halves k).1.drop n1 ∧
      ((roomStep allocId mpg st room i).2.halves k).2 = (st.halves k).2.drop n2 ∧
      Interleave ((st.halves k).1.take n1) ((st.halves k).2.take n2)
        (((roomStep allocId mpg st room i).1.filter
          (fun r => r.student.year = k.1 ∧ r.student.sec = k.2)).map
          (fun r => r.student)) := by
  rcases roomStep_inversion allocId mpg st room i with
    ⟨hrecs, hh, hk⟩ | ⟨g, h, hgk, _, hrecs, hh, hk⟩ |
    ⟨p, h1, h2, hpmem, hk1, hk2, hrecs, hh, hk⟩
  · refine ⟨0, 0, ?_, ?_, ?_⟩
    · rw [hh]; simp
    · rw [hh]; simp
    · rw [hrecs]
      simpa using Interleave.nil
  · by_cases hkg : k = g
    · subst hkg
      cases h with
      | first =>
          refine ⟨(syCall allocId i room st k Half.first).2, 0, ?_, ?_, ?_⟩
          · rw [hh, consumeHalf_halves_self_first]
          · rw [hh, consumeHalf_halves_self_first]
            simp
          · rw [hrecs]
            have hfilt : (syCall allocId i room st k Half.first).1.filter
                (fun r => decide (r.student.year = k.1 ∧ r.student.sec = k.2)) =
                (syCall allocId i room st k Half.first).1 := by
              rw [List.filter_eq_self]
              intro r hr
              have hmem := (syCall_mem allocId i room st k Half.first r hr).2.2.2.2
              have hf := fields_halfOf hInv hmem
              simp [hf.1, hf.2]
            rw [hfilt, syCall_records_map]
            simp only [halfOf, List.take_zero]
            exact Interleave.nil_right _
      | second =>
          refine ⟨0, (syCall allocId i room st k Half.second).2, ?_, ?_, ?_⟩
          · rw [hh, consumeHalf_halves_self_second]
            simp
          · rw [hh, consumeHalf_halves_self_second]
          · rw [hrecs]
            have hfilt : (syCall allocId i room st k Half.second).1.filter
                (fun r => decide (r.student.year = k.1 ∧ r.student.sec = k.2)) =
                (syCall allocId i room st k Half.second).1 := by
              rw [List.filter_eq_self]
              intro r hr
              have hmem := (syCall_mem allocId i room st k Half.second r hr).2.2.2.2
              have hf := fields_halfOf hInv hmem
              simp [hf.1, hf.2]
            rw [hfilt, syCall_records_map]
            simp only [halfOf, List.take_zero]
            exact Interleave.nil_left _
    · refine ⟨0, 0, ?_, ?_, ?_⟩
      · rw [hh, consumeHalf_halves_other st g h _ hkg]; simp
      · rw [hh, consumeHalf_halves_other st g h _ hkg]; simp
      · rw [hrecs]
        have hfilt : (syCall allocId i room st g h).1.filter
            (fun r => decide (r.student.year = k.1 ∧ r.student.sec = k.2)) = [] := by
          rw [List.filter_eq_nil_iff]
          intro r hr
          have hmem := (syCall_mem allocId i room st g h r hr).2.2.2.2
          have hf := fields_halfOf hInv hmem
          simp only [decide_eq_true_eq, not_and]
          intro hy hsec
          exact hkg (by
            cases k with
            | mk ky ks => cases g with
              | mk gy gs =>
                  simp only at hy hsec hf ⊢
                  rw [← hf.1, ← hf.2, hy, hsec])
        rw [hfilt]
        simpa using Interleave.nil
  · have hsound := build_dynamic_pairings_sound _ _ _ hpmem
    have hne12 : p.1 ≠ p.2 := by
      intro hq
      exact hsound.2.2 (by rw [hq])
    have houter1 : (roomStep allocId mpg st room i).2.halves p.1 =
        ((consumeHalf st p.1 (some h1) (prCall allocId mpg i room st p h1 h2).2.1).halves p.1) := by
      rw [hh]
      exact consumeHalf_halves_other _ p.2 h2 _ hne12
    have hfieldsL : ∀ r ∈ (prCall allocId mpg i room st p h1 h2).1,
        r.seat_pos = SeatPos.left → r.student.year = p.1.1 ∧ r.student.sec = p.1.2 := by
      intro r hr hL
      exact fields_halfOf hInv ((prCall_mem allocId mpg i room st p h1 h2 r hr).2.2.2.1 hL)
    have hfieldsR : ∀ r ∈ (prCall allocId mpg i room st p h1 h2).1,
        r.seat_pos = SeatPos.right → r.student.year = p.2.1 ∧ r.student.sec = p.2.2 := by
      intro r hr hR
      exact fields_halfOf hInv ((prCall_mem allocId mpg i room st p h1 h2 r hr).2.2.2.2 hR)
    by_cases hkp1 : k = p.1
    · subst hkp1
      have hfilt : (prCall allocId mpg i room st p h1 h2).1.filter
          (fun r => decide (r.student.year = p.1.1 ∧ r.student.sec = p.1.2)) =
          (prCall allocId mpg i room st p h1 h2).1.filter
          (fun r => decide (r.seat_pos = SeatPos.left)) := by
        refine List.filter_congr (fun r hr => ?_)
        cases hp : r.seat_pos with
        | left =>
            have hf := hfieldsL r hr hp
            simp [hf.1, hf.2]
        | right =>
            have hf := hfieldsR r hr hp
            have hno : ¬(r.student.year = p.1.1 ∧ r.student.sec = p.1.2) := by
              intro hcon
              refine hne12 ?_
              rw [Prod.ext_iff]
              exact ⟨by rw [← hcon.1, hf.1], by rw [← hcon.2, hf.2]⟩
            simp [hno, hp]
      cases h1 with
      | first =>
          refine ⟨(prCall allocId mpg i room st p Half.first h2).2.1, 0, ?_, ?_, ?_⟩
          · rw [houter1, consumeHalf_halves_self_first]
          · rw [houter1, consumeHalf_halves_self_first]
            simp
          · rw [hrecs, hfilt, prCall_left_map]
            simp only [halfOf, List.take_zero]
            exact Interleave.nil_right _
      | second =>
          refine ⟨0, (prCall allocId mpg i room st p Half.second h2).2.1, ?_, ?_, ?_⟩
          · rw [houter1, consumeHalf_halves_self_second]
            simp
          · rw [houter1, consumeHalf_halves_self_second]
          · rw [hrecs, hfilt, prCall_left_map]
            simp only [halfOf, List.take_zero]
            exact Interleave.nil_left _
    · by_cases hkp2 : k = p.2
      · subst hkp2
        have houter2 : (roomStep allocId mpg st room i).2.halves p.2 =
            ((consumeHalf st p.2 (some h2)
              (prCall allocId mpg i room st p h1 h2).2.2).halves p.2) := by
          rw [hh]
          have hmid : (consumeHalf st p.1 (some h1)
              (prCall allocId mpg i room st p h1 h2).2.1).halves p.2 = st.halves p.2 :=
            consumeHalf_halves_other st p.1 h1 _ (Ne.symm hne12)
          cases h2 with
          | first =>
              rw [consumeHalf_halves_self_first, consumeHalf_halves_self_first, hmid]
          | second =>
              rw [consumeHalf_halves_self_second, consumeHalf_halves_self_second, hmid]
        have hfilt : (prCall allocId mpg i room st p h1 h2).1.filter
            (fun r => decide (r.student.year = p.2.1 ∧ r.student.sec = p.2.2)) =
            (prCall allocId mpg i room st p h1 h2).1.filter
            (fun r => decide (r.seat_pos = SeatPos.right)) := by
          refine List.filter_congr (fun r hr => ?_)
          cases hp : r.seat_pos with
          | right =>
              have hf := hfieldsR r hr hp
              simp [hf.1, hf.2]
          | left =>
              have hf := hfieldsL r hr hp
              have hno : ¬(r.student.year = p.2.1 ∧ r.student.sec = p.2.2) := by
                intro hcon
                refine hne12 ?_
                rw [Prod.ext_iff]
                exact ⟨by rw [← hf.1, hcon.1], by rw [← hf.2, hcon.2]⟩
              simp [hno, hp]
        cases h2 with
        | first =>
            refine ⟨(prCall allocId mpg i room st p h1 Half.first).2.2, 0, ?_, ?_, ?_⟩
            · rw [houter2, consumeHalf_halves_self_first]
            · rw [houter2, consumeHalf_halves_self_first]
              simp
            · rw [hrecs, hfilt, prCall_right_map]
              simp only [halfOf, List.take_zero]
              exact Interleave.nil_right _
        | second =>
            refine ⟨0, (prCall allocId mpg i room st p h1 Half.second).2.2, ?_, ?_, ?_⟩
            · rw [houter2, consumeHalf_halves_self_second]
              simp
            · rw [houter2, consumeHalf_halves_self_second]
            · rw [hrecs, hfilt, prCall_right_map]
              simp only [halfOf, List.take_zero]
              exact Interleave.nil_left _
      · refine ⟨0, 0, ?_, ?_, ?_⟩
        · rw [hh, consumeHalf_halves_other _ p.2 h2 _ hkp2,
            consumeHalf_halves_other st p.1 h1 _ hkp1]
          simp
        · rw [hh, consumeHalf_halves_other _ p.2 h2 _ hkp2,
            consumeHalf_halves_other st p.1 h1 _ hkp1]
          simp
        · rw [hrecs]
          have hfilt : (prCall allocId mpg i room st p h1 h2).1.filter
              (fun r => decide (r.student.year = k.1 ∧ r.student.sec = k.2)) = [] := by
            rw [List.filter_eq_nil_iff]
            intro r hr
            simp only [decide_eq_true_eq, not_and]
            intro hy hsec
            cases hp : r.seat_pos with
            | left =>
                have hf := hfieldsL r hr hp
                refine hkp1 ?_
                rw [Prod.ext_iff]
                exact ⟨by rw [← hy, hf.1], by rw [← hsec, hf.2]⟩
            | right =>
                have hf := hfieldsR r hr hp
                refine hkp2 ?_
                rw [Prod.ext_iff]
                exact ⟨by rw [← hy, hf.1], by rw [← hsec, hf.2]⟩
          rw [hfilt]
          simpa using Interleave.nil

/-! ### Properties of the room loop -/

theorem allocLoop_records_cons (allocId mpg : Nat) (st : AllocState) (room : Room)
    (rest : List Room) (i : Nat) :
    (allocLoop allocId mpg st (room :: rest) i).1 =
      if totalRemaining st = 0 then []
      else (roomStep allocId mpg st room i).1 ++
        (allocLoop allocId mpg (roomStep allocId mpg st room i).2 rest (i + 1)).1 := by
  simp only [allocLoop]
  split
  · rfl
  · split
    · next hs => rw [hs]; simp
    · rfl

/-- Once no students remain, the loop produces nothing at all. -/
theorem allocLoop_stop (allocId mpg : Nat) (st : AllocState) (rooms : List Room) (i : Nat)
    (h : totalRemaining st = 0) : allocLoop allocId mpg st rooms i = ([], 0) := by
  cases rooms with
  | nil => rfl
  | cons room rest => simp [allocLoop, h]

/-- Every record of the loop belongs to a room at or after the starting
index. -/
theorem allocLoop_roomIdx (allocId mpg : Nat) :
    ∀ (rooms : List Room) (st : AllocState) (i : Nat),
      ∀ r ∈ (allocLoop allocId mpg st rooms i).1, i ≤ r.roomIdx := by
  intro rooms
  induction rooms with
  | nil => intro st i r hr; simp [allocLoop] at hr
  | cons room rest ih =>
      intro st i r hr
      rw [allocLoop_records_cons] at hr
      split at hr
      · simp at hr
      · rcases List.mem_append.1 hr with hr | hr
        · rw [(roomStep_mem allocId mpg st room i r hr).1]
        · have := ih _ (i + 1) r hr
          omega

/-- Every record names a real room of the list (index-aligned) and a
bench within that room. -/
theorem allocLoop_mem (allocId mpg : Nat) :
    ∀ (rooms : List Room) (st : AllocState) (i : Nat),
      ∀ r ∈ (allocLoop allocId mpg st rooms i).1,
        ∃ j rm, rooms[j]? = some rm ∧ r.roomIdx = i + j ∧
          1 ≤ r.bench_no ∧ r.bench_no ≤ rm.rows * rm.cols := by
  intro rooms
  induction rooms with
  | nil => intro st i r hr; simp [allocLoop] at hr
  | cons room rest ih =>
      intro st i r hr
      rw [allocLoop_records_cons] at hr
      split at hr
      · simp at hr
      · rcases List.mem_append.1 hr with hr | hr
        · obtain ⟨h1, h2, h3⟩ := roomStep_mem allocId mpg st room i r hr
          exact ⟨0, room, by simp, by omega, h2, h3⟩
        · obtain ⟨j, rm, hj, hidx, hb1, hb2⟩ := ih _ (i + 1) r hr
          exact ⟨j + 1, rm, by simpa using hj, by omega, hb1, hb2⟩

/-- The loop fills at most `2 × rows × cols` seats per room in the list. -/
theorem allocLoop_length (allocId mpg : Nat) :
    ∀ (rooms : List Room) (st : AllocState) (i : Nat),
      (allocLoop allocId mpg st rooms i).1.length ≤
        (rooms.map (fun rm => 2 * (rm.rows * rm.cols))).sum := by
  intro rooms
  induction rooms with
  | nil => intro st i; simp [allocLoop]
  | cons room rest ih =>
      intro st i
      rw [allocLoop_records_cons]
      split
      · simp
      · rw [List.length_append]
        have h1 := roomStep_length allocId mpg st room i
        have h2 := ih (roomStep allocId mpg st room i).2 (i + 1)
        simp only [List.map_cons, List.sum_cons]
        omega

/-- No two records of a run collide on (room, bench, seat side). -/
theorem allocLoop_pairwise (allocId mpg : Nat) :
    ∀ (rooms : List Room) (st : AllocState) (i : Nat),
      List.Pairwise (fun x y =>
          ¬(x.roomIdx = y.roomIdx ∧ x.bench_no = y.bench_no ∧ x.seat_pos = y.seat_pos))
        (allocLoop allocId mpg st rooms i).1 := by
  intro rooms
  induction rooms with
  | nil => intro st i; simp [allocLoop]
  | cons room rest ih =>
      intro st i
      rw [allocLoop_records_cons]
      split
      · simp
      · refine List.pairwise_append.2 ⟨?_, ih _ (i + 1), ?_⟩
        · refine (roomStep_pairwise allocId mpg st room i).imp ?_
          intro a b hab hcon
          exact hab ⟨hcon.2.1, hcon.2.2⟩
        · intro a ha b hb hcon
          have hia : a.roomIdx = i := (roomStep_mem allocId mpg st room i a ha).1
          have hib : i + 1 ≤ b.roomIdx := allocLoop_roomIdx allocId mpg rest _ (i + 1) b hb
          omega

/-- The students of a run's records are drawn (without repetition of
queue entries) from the queue state. -/
theorem allocLoop_subperm (allocId mpg : Nat) :
    ∀ (rooms : List Room) (st : AllocState) (i : Nat), Inv st →
      ((allocLoop allocId mpg st rooms i).1.map (fun r => r.student)).Subperm
        (flattenState st) := by
  intro rooms
  induction rooms with
  | nil => intro st i _; simp [allocLoop]
  | cons room rest ih =>
      intro st i hInv
      rw [allocLoop_records_cons]
      split
      · simp
      · rw [List.map_append]
        have hflat := roomStep_flatten allocId mpg room i hInv
        have htail := ih (roomStep allocId mpg st room i).2 (i + 1)
          (roomStep_Inv allocId mpg room i hInv)
        have h1 : ((roomStep allocId mpg st room i).1.map (fun r => r.student) ++
            (allocLoop allocId mpg (roomStep allocId mpg st room i).2 rest (i + 1)).1.map
              (fun r => r.student)).Subperm
            ((roomStep allocId mpg st room i).1.map (fun r => r.student) ++
              flattenState (roomStep allocId mpg st room i).2) :=
          (List.subperm_append_left _).2 htail
        exact h1.trans hflat.symm.subperm

/-- Across a run, a left record and a right record of the same room
carry students of different years. -/
theorem allocLoop_yearne (allocId mpg : Nat) :
    ∀ (rooms : List Room) (st : AllocState) (i : Nat), Inv st →
      ∀ a ∈ (allocLoop allocId mpg st rooms i).1,
        ∀ b ∈ (allocLoop allocId mpg st rooms i).1,
        a.roomIdx = b.roomIdx → a.seat_pos = SeatPos.left → b.seat_pos = SeatPos.right →
        a.student.year ≠ b.student.year := by
  intro rooms
  induction rooms with
  | nil => intro st i _ a ha; simp [allocLoop] at ha
  | cons room rest ih =>
      intro st i hInv a ha b hb hroom haL hbR
      rw [allocLoop_records_cons] at ha hb
      split at ha
      · simp at ha
      · rw [if_neg (by assumption)] at hb
        rcases List.mem_append.1 ha with ha | ha <;> rcases List.mem_append.1 hb with hb | hb
        · exact roomStep_year allocId mpg room i hInv a ha b hb haL hbR
        · have h1 : a.roomIdx = i := (roomStep_mem allocId mpg st room i a ha).1
          have h2 := allocLoop_roomIdx allocId mpg rest _ (i + 1) b hb
          omega
        · have h1 : b.roomIdx = i := (roomStep_mem allocId mpg st room i b hb).1
          have h2 := allocLoop_roomIdx allocId mpg rest _ (i + 1) a ha
          omega
        · exact ih _ (i + 1) (roomStep_Inv allocId mpg room i hInv) a ha b hb hroom haL hbR

theorem prefix_take_extend {α : Type} {L l' : List α} (n : Nat) (h : l' <+: L.drop n) :
    L.take n ++ l' <+: L := by
  obtain ⟨t, ht⟩ := h
  exact ⟨t, by rw [List.append_assoc, ht, List.take_append_drop]⟩

/-- Across a run, the placement-order sequence of one group's students
is an interleaving of a prefix of its first half-queue with a prefix of
its second half-queue. -/
theorem allocLoop_interleave (allocId mpg : Nat) :
    ∀ (rooms : List Room) (st : AllocState) (i : Nat), Inv st → ∀ k : Nat × String,
      ∃ l1 l2, l1 <+: (st.halves k).1 ∧ l2 <+: (st.halves k).2 ∧
        Interleave l1 l2 (((allocLoop allocId mpg st rooms i).1.filter
          (fun r => r.student.year = k.1 ∧ r.student.sec = k.2)).map (fun r => r.student)) := by
  intro rooms
  induction rooms with
  | nil =>
      intro st i _ k
      refine ⟨[], [], List.nil_prefix, List.nil_prefix, ?_⟩
      simp [allocLoop]
      exact Interleave.nil
  | cons room rest ih =>
      intro st i hInv k
      rw [allocLoop_records_cons]
      split
      · refine ⟨[], [], List.nil_prefix, List.nil_prefix, ?_⟩
        simpa using Interleave.nil
      · obtain ⟨n1, n2, hd1, hd2, hintl⟩ := roomStep_interleave allocId mpg room i hInv k
        obtain ⟨l1', l2', hp1, hp2, hintl'⟩ := ih (roomStep allocId mpg st room i).2 (i + 1)
          (roomStep_Inv allocId mpg room i hInv) k
        rw [hd1] at hp1
        rw [hd2] at hp2
        refine ⟨(st.halves k).1.take n1 ++ l1', (st.halves k).2.take n2 ++ l2',
          prefix_take_extend n1 hp1, prefix_take_extend n2 hp2, ?_⟩
        rw [List.filter_append, List.map_append]
        exact hintl.append hintl'

/-! ### The grouping stage and the initial state -/

theorem insertStudent_perm (s : Student) (l : List Student) :
    (insertStudent s l).Perm (s :: l) := by
  induction l with
  | nil => simp [insertStudent]
  | cons t ts ih =>
      simp only [insertStudent]
      split
      · exact List.Perm.refl _
      · exact (ih.cons t).trans (List.Perm.swap s t ts)

theorem sortByRoll_perm (l : List Student) : (sortByRoll l).Perm l := by
  induction l with
  | nil => simp [sortByRoll]
  | cons s ss ih =>
      simp only [sortByRoll, List.foldr] at ih ⊢
      exact (insertStudent_perm s _).trans (ih.cons s)

theorem addToGroup_keys (acc : List ((Nat × String) × List Student)) (k : Nat × String)
    (s : Student) :
    (addToGroup acc k s).map Prod.fst =
      if k ∈ acc.map Prod.fst then acc.map Prod.fst else acc.map Prod.fst ++ [k] := by
  induction acc with
  | nil => simp [addToGroup]
  | cons e rest ih =>
      obtain ⟨k', l⟩ := e
      by_cases hk : k' = k
      · subst hk
        simp [addToGroup]
      · simp only [addToGroup, hk, if_false, List.map_cons, ih]
        by_cases hmem : k ∈ rest.map Prod.fst
        · simp [hmem, Ne.symm hk]
        · simp [hmem, Ne.symm hk]

theorem addToGroup_keys_nodup {acc : List ((Nat × String) × List Student)}
    (h : (acc.map Prod.fst).Nodup) (k : Nat × String) (s : Student) :
    ((addToGroup acc k s).map Prod.fst).Nodup := by
  rw [addToGroup_keys]
  split
  · exact h
  · next hmem =>
      rw [List.nodup_append]
      refine ⟨h, by simp, ?_⟩
      intro a ha hb
      simp only [List.mem_singleton] at hb
      subst hb
      exact hmem ha

theorem addToGroup_fields {acc : List ((Nat × String) × List Student)}
    (hacc : ∀ kl ∈ acc, ∀ s ∈ kl.2, s.year = kl.1.1 ∧ s.sec = kl.1.2)
    {s : Student} :
    ∀ kl ∈ addToGroup acc (s.year, s.sec) s, ∀ t ∈ kl.2, t.year = kl.1.1 ∧ t.sec = kl.1.2 := by
  induction acc with
  | nil =>
      intro kl hkl t ht
      simp only [addToGroup, List.mem_singleton] at hkl
      subst hkl
      simp only [List.mem_singleton] at ht
      subst ht
      exact ⟨rfl, rfl⟩
  | cons e rest ih =>
      intro kl hkl t ht
      obtain ⟨k', l⟩ := e
      simp only [addToGroup] at hkl
      by_cases hk : k' = (s.year, s.sec)
      · rw [if_pos hk] at hkl
        rcases List.mem_cons.1 hkl with heq | hkl
        · subst heq
          rcases List.mem_append.1 ht with hta | hts
          · exact hacc (k', l) (by simp) t hta
          · simp only [List.mem_singleton] at hts
            subst hts
            rw [hk]
            exact ⟨rfl, rfl⟩
        · exact hacc kl (List.mem_cons_of_mem _ hkl) t ht
      · rw [if_neg hk] at hkl
        rcases List.mem_cons.1 hkl with heq | hkl
        · subst heq
          exact hacc (k', l) (by simp) t ht
        · exact ih (fun kl hkl => hacc kl (List.mem_cons_of_mem _ hkl)) kl hkl t ht

theorem addToGroup_flatten (acc : List ((Nat × String) × List Student)) (k : Nat × String)
    (s : Student) :
    (((addToGroup acc k s).map Prod.snd).flatten).Perm
      (((acc.map Prod.snd).flatten) ++ [s]) := by
  induction acc with
  | nil => simp [addToGroup]
  | cons e rest ih =>
      obtain ⟨k', l⟩ := e
      simp only [addToGroup]
      split
      · simp only [List.map_cons, List.flatten_cons]
        rw [List.append_assoc, List.append_assoc]
        exact List.Perm.append_left l List.perm_append_comm
      · simp only [List.map_cons, List.flatten_cons]
        rw [List.append_assoc]
        exact ih.append_left l

/-- Properties of the `defaultdict` grouping fold: distinct keys, keyed
fields, and the same students as a multiset. -/
theorem groupFold_props (students : List Student) :
    ∀ acc : List ((Nat × String) × List Student),
      (acc.map Prod.fst).Nodup →
      (∀ kl ∈ acc, ∀ s ∈ kl.2, s.year = kl.1.1 ∧ s.sec = kl.1.2) →
      (((students.foldl (fun acc s => addToGroup acc (s.year, s.sec) s) acc).map
          Prod.fst).Nodup) ∧
      (∀ kl ∈ students.foldl (fun acc s => addToGroup acc (s.year, s.sec) s) acc,
        ∀ s ∈ kl.2, s.year = kl.1.1 ∧ s.sec = kl.1.2) ∧
      ((((students.foldl (fun acc s => addToGroup acc (s.year, s.sec) s) acc).map
          Prod.snd).flatten).Perm (((acc.map Prod.snd).flatten) ++ students)) := by
  induction students with
  | nil =>
      intro acc h1 h2
      exact ⟨h1, h2, by simp⟩
  | cons s ss ih =>
      intro acc h1 h2
      obtain ⟨g1, g2, g3⟩ := ih (addToGroup acc (s.year, s.sec) s)
        (addToGroup_keys_nodup h1 _ s) (addToGroup_fields h2)
      refine ⟨g1, g2, ?_⟩
      refine g3.trans ?_
      have hflat := addToGroup_flatten acc (s.year, s.sec) s
      refine (hflat.append_right ss).trans ?_
      rw [List.append_assoc]
      simp

theorem lookupGroup_none {acc : List ((Nat × String) × List Student)} {k : Nat × String}
    (h : k ∉ acc.map Prod.fst) : lookupGroup acc k = none := by
  induction acc with
  | nil => rfl
  | cons e rest ih =>
      obtain ⟨k', l⟩ := e
      simp only [List.map_cons, List.mem_cons, not_or] at h
      simp only [lookupGroup]
      rw [if_neg (Ne.symm h.1)]
      exact ih h.2

theorem lookupGroup_some_mem {acc : List ((Nat × String) × List Student)}
    {k : Nat × String} {l : List Student} (h : lookupGroup acc k = some l) : (k, l) ∈ acc := by
  induction acc with
  | nil => simp [lookupGroup] at h
  | cons e rest ih =>
      obtain ⟨k', l'⟩ := e
      by_cases hk : k' = k
      · simp only [lookupGroup] at h
        rw [if_pos hk, Option.some.injEq] at h
        subst h
        rw [← hk]
        simp
      · simp only [lookupGroup] at h
        rw [if_neg hk] at h
        exact List.mem_cons_of_mem _ (ih h)

/-- Looking up each key of an assoc list with distinct keys recovers the
list's own entries. -/
theorem map_keys_lookup (g : List Student → List Student) :
    ∀ (acc : List ((Nat × String) × List Student)), (acc.map Prod.fst).Nodup →
      (acc.map Prod.fst).map (fun k =>
        match lookupGroup acc k with
        | some l => g l
        | none => []) = acc.map (fun kl => g kl.2) := by
  intro acc
  induction acc with
  | nil => intro _; rfl
  | cons e rest ih =>
      intro hnd
      obtain ⟨k0, l0⟩ := e
      simp only [List.map_cons]
      refine congrArg₂ _ ?_ ?_
      · simp [lookupGroup]
      · have hnd2 := hnd
        rw [List.map_cons] at hnd2
        have hk0 : k0 ∉ rest.map Prod.fst := (List.nodup_cons.1 hnd2).1
        have hrest := ih (List.nodup_cons.1 hnd2).2
        rw [← hrest]
        refine List.map_congr_left (fun k hk => ?_)
        have hne : ¬k0 = k := by
          intro he
          subst he
          exact hk0 hk
        simp only [lookupGroup]
        rw [if_neg hne]

/-- The block-mode shuffle pass keeps keys and permutes each value
(when the abstract shuffle permutes). -/
theorem block_fold_spec {R : Type} (shuffleR : R → List Student → List Student × R)
    (hsh : ∀ r l, ((shuffleR r l).1).Perm l) :
    ∀ (G : List ((Nat × String) × List Student))
      (acc : List ((Nat × String) × List Student)) (r : R),
      ∃ tail,
        (G.foldl
          (fun acc entry =>
            let students_list := entry.2
            let half := (students_list.length + 1) / 2
            let first_half := students_list.take half
            let second_half := students_list.drop half
            let p1 := shuffleR acc.2 first_half
            let p2 := shuffleR p1.2 second_half
            (acc.1 ++ [(entry.1, p1.1 ++ p2.1)], p2.2))
          (acc, r)).1 = acc ++ tail ∧
        List.Forall₂ (fun a b : (Nat × String) × List Student =>
          a.1 = b.1 ∧ a.2.Perm b.2) tail G := by
  intro G
  induction G with
  | nil => intro acc r; exact ⟨[], by simp, List.Forall₂.nil⟩
  | cons e es ih =>
      intro acc r
      obtain ⟨tail, htail, hrel⟩ := ih
        (acc ++ [(e.1, (shuffleR r (e.2.take ((e.2.length + 1) / 2))).1 ++
          (shuffleR (shuffleR r (e.2.take ((e.2.length + 1) / 2))).2
            (e.2.drop ((e.2.length + 1) / 2))).1)])
        (shuffleR (shuffleR r (e.2.take ((e.2.length + 1) / 2))).2
          (e.2.drop ((e.2.length + 1) / 2))).2
      refine ⟨(e.1, (shuffleR r (e.2.take ((e.2.length + 1) / 2))).1 ++
        (shuffleR (shuffleR r (e.2.take ((e.2.length + 1) / 2))).2
          (e.2.drop ((e.2.length + 1) / 2))).1) :: tail, ?_, ?_⟩
      · simp only [List.foldl_cons]
        rw [htail, List.append_assoc]
        rfl
      · refine List.Forall₂.cons ⟨rfl, ?_⟩ hrel
        refine ((hsh _ _).append (hsh _ _)).trans ?_
        rw [List.take_append_drop]

theorem forall₂_keys {F G : List ((Nat × String) × List Student)}
    (h : List.Forall₂ (fun a b : (Nat × String) × List Student =>
      a.1 = b.1 ∧ a.2.Perm b.2) F G) : F.map Prod.fst = G.map Prod.fst := by
  induction h with
  | nil => rfl
  | cons hab _ ih => simp [hab.1, ih]

theorem forall₂_flatten {F G : List ((Nat × String) × List Student)}
    (h : List.Forall₂ (fun a b : (Nat × String) × List Student =>
      a.1 = b.1 ∧ a.2.Perm b.2) F G) :
    ((F.map Prod.snd).flatten).Perm ((G.map Prod.snd).flatten) := by
  induction h with
  | nil => exact List.Perm.refl _
  | cons hab _ ih =>
      simp only [List.map_cons, List.flatten_cons]
      exact hab.2.append ih

theorem forall₂_fields {F G : List ((Nat × String) × List Student)}
    (h : List.Forall₂ (fun a b : (Nat × String) × List Student =>
      a.1 = b.1 ∧ a.2.Perm b.2) F G)
    (hG : ∀ kl ∈ G, ∀ s ∈ kl.2, s.year = kl.1.1 ∧ s.sec = kl.1.2) :
    ∀ kl ∈ F, ∀ s ∈ kl.2, s.year = kl.1.1 ∧ s.sec = kl.1.2 := by
  induction h with
  | nil => intro kl hkl; simp at hkl
  | cons hab hrest ih =>
      intro kl hkl s hs
      rcases List.mem_cons.1 hkl with rfl | hkl
      · have hmem := hab.2.mem_iff.1 hs
        have := hG _ (List.mem_cons_self _ _) s hmem
        rw [hab.1]
        exact this
      · exact ih (fun kl hkl => hG kl (List.mem_cons_of_mem _ hkl)) kl hkl s hs

/-- The grouping stage, whatever the strategy, yields distinct keys,
correctly keyed students, and exactly the input students. -/
theorem group_students_props {R : Type} (mkRng : Option Nat → R)
    (shuffleR : R → List Student → List Student × R)
    (hsh : ∀ r l, ((shuffleR r l).1).Perm l)
    (students : List Student) (ds : String) (seed : Option Nat) :
    (((group_students_by_year_section mkRng shuffleR students ds seed).map
        Prod.fst).Nodup) ∧
    (∀ kl ∈ group_students_by_year_section mkRng shuffleR students ds seed,
      ∀ s ∈ kl.2, s.year = kl.1.1 ∧ s.sec = kl.1.2) ∧
    ((((group_students_by_year_section mkRng shuffleR students ds seed).map
        Prod.snd).flatten).Perm students) := by
  have hbase := groupFold_props (sortByRoll students) [] (by simp) (by simp)
  have hperm : ((((sortByRoll students).foldl
      (fun acc s => addToGroup acc (s.year, s.sec) s) []).map Prod.snd).flatten).Perm
      students := by
    refine hbase.2.2.trans ?_
    simpa using sortByRoll_perm students
  rw [group_students_by_year_section]
  by_cases hds : pyLower (pyStrip (if ds = "" then "cycle" else ds)) = "block"
  · rw [if_pos hds]
    obtain ⟨tail, htail, hrel⟩ := block_fold_spec shuffleR hsh
      ((sortByRoll students).foldl (fun acc s => addToGroup acc (s.year, s.sec) s) [])
      [] (mkRng seed)
    rw [htail]
    simp only [List.nil_append]
    refine ⟨?_, ?_, ?_⟩
    · rw [forall₂_keys hrel]
      exact hbase.1
    · exact forall₂_fields hrel hbase.2.1
    · exact (forall₂_flatten hrel).trans hperm
  · rw [if_neg hds]
    exact ⟨hbase.1, hbase.2.1, hperm⟩

theorem initialState_keys (SG : List ((Nat × String) × List Student)) :
    (initialState SG).keys = SG.map Prod.fst := rfl

theorem initialState_Inv (SG : List ((Nat × String) × List Student))
    (hnd : (SG.map Prod.fst).Nodup)
    (hfields : ∀ kl ∈ SG, ∀ s ∈ kl.2, s.year = kl.1.1 ∧ s.sec = kl.1.2) :
    Inv (initialState SG) := by
  refine ⟨hnd, ?_, ?_, ?_⟩
  · intro k hk
    simp only [initialState, lookupGroup_none hk]
  · intro k s hs
    simp only [initialState] at hs
    cases hlk : lookupGroup SG k with
    | none => rw [hlk] at hs; simp at hs
    | some l =>
        rw [hlk] at hs
        simp only at hs
        have hmem := lookupGroup_some_mem hlk
        exact hfields (k, l) hmem s (List.mem_of_mem_take hs)
  · intro k s hs
    simp only [initialState] at hs
    cases hlk : lookupGroup SG k with
    | none => rw [hlk] at hs; simp at hs
    | some l =>
        rw [hlk] at hs
        simp only at hs
        have hmem := lookupGroup_some_mem hlk
        exact hfields (k, l) hmem s (List.mem_of_mem_drop hs)

theorem initialState_flatten (SG : List ((Nat × String) × List Student))
    (hnd : (SG.map Prod.fst).Nodup) :
    flattenState (initialState SG) = (SG.map Prod.snd).flatten := by
  simp only [flattenState, initialState]
  congr 1
  have hmk := map_keys_lookup
    (fun l => l.take ((l.length + 1) / 2) ++ l.drop ((l.length + 1) / 2)) SG hnd
  have hstep : (SG.map Prod.fst).map (fun k =>
      ((match lookupGroup SG k with
        | some l => (l.take ((l.length + 1) / 2), l.drop ((l.length + 1) / 2))
        | none => (([] : List Student), ([] : List Student))) : List Student × List Student).1 ++
      ((match lookupGroup SG k with
        | some l => (l.take ((l.length + 1) / 2), l.drop ((l.length + 1) / 2))
        | none => ([], [])) : List Student × List Student).2) =
      (SG.map Prod.fst).map (fun k =>
        match lookupGroup SG k with
        | some l => l.take ((l.length + 1) / 2) ++ l.drop ((l.length + 1) / 2)
        | none => []) := by
    refine List.map_congr_left (fun k _ => ?_)
    cases lookupGroup SG k <;> simp
  rw [hstep, hmk]
  refine List.map_congr_left (fun kl _ => ?_)
  exact List.take_append_drop _ _

/-! ### Unfolding lemmas for the whole run -/

/-- With the "cycle" strategy the grouping stage is the raw roll-sorted
`defaultdict` fold — no shuffle, no seed. -/
theorem group_students_cycle {R : Type} (mkRng : Option Nat → R)
    (shuffleR : R → List Student → List Student × R)
    (students : List Student) (seed : Option Nat) :
    group_students_by_year_section mkRng shuffleR students "cycle" seed =
      (sortByRoll students).foldl (fun acc s => addToGroup acc (s.year, s.sec) s) [] := by
  simp only [group_students_by_year_section]
  rw [if_neg (by decide)]

/-- On empty students or rooms the run deletes the allocation's old
records and returns zero counts without creating anything. -/
theorem generate_allocation_empty {R : Type} (mkRng : Option Nat → R)
    (shuffleR : R → List Student → List Student × R)
    (allocId : Nat) (db : List SeatAssignment) (students : List Student) (rooms : List Room)
    (rpr cpr : Option Nat) (ds : String) (seed : Option Nat) (fl : Bool)
    (h : students = [] ∨ rooms = []) :
    generate_allocation mkRng shuffleR allocId db students rooms rpr cpr ds seed fl =
      { db := db.filter (fun r => r.allocation ≠ allocId), new := [],
        total_seats := 0, rooms_processed := 0 } := by
  simp only [generate_allocation]
  rw [if_pos]
  rcases h with h | h <;> subst h <;> simp

/-- On nonempty inputs the run is the room loop over the half-split
initial state, appended to the cleaned record set. -/
theorem generate_allocation_run {R : Type} (mkRng : Option Nat → R)
    (shuffleR : R → List Student → List Student × R)
    (allocId : Nat) (db : List SeatAssignment) (students : List Student) (rooms : List Room)
    (rpr cpr : Option Nat) (ds : String) (seed : Option Nat) (fl : Bool)
    (h1 : students ≠ []) (h2 : rooms ≠ []) :
    generate_allocation mkRng shuffleR allocId db students rooms rpr cpr ds seed fl =
      { db := db.filter (fun r => r.allocation ≠ allocId) ++
          (allocLoop allocId (calculate_pre_allocation_metrics students.length rooms.length).2
            (initialState (group_students_by_year_section mkRng shuffleR students ds seed))
            rooms 0).1,
        new := (allocLoop allocId
            (calculate_pre_allocation_metrics students.length rooms.length).2
            (initialState (group_students_by_year_section mkRng shuffleR students ds seed))
            rooms 0).1,
        total_seats := (allocLoop allocId
            (calculate_pre_allocation_metrics students.length rooms.length).2
            (initialState (group_students_by_year_section mkRng shuffleR students ds seed))
            rooms 0).1.length,
        rooms_processed := (allocLoop allocId
            (calculate_pre_allocation_metrics students.length rooms.length).2
            (initialState (group_students_by_year_section mkRng shuffleR students ds seed))
            rooms 0).2 } := by
  simp only [generate_allocation]
  rw [if_neg (by simp only [List.length_eq_zero, not_or]; exact ⟨h1, h2⟩)]

/-- The invariant holds at the start of every run (for a
permutation-respecting shuffle). -/
theorem initial_run_Inv {R : Type} (mkRng : Option Nat → R)
    (shuffleR : R → List Student → List Student × R)
    (hsh : ∀ r l, ((shuffleR r l).1).Perm l)
    (students : List Student) (ds : String) (seed : Option Nat) :
    Inv (initialState (group_students_by_year_section mkRng shuffleR students ds seed)) := by
  obtain ⟨h1, h2, _⟩ := group_students_props mkRng shuffleR hsh students ds seed
  exact initialState_Inv _ h1 h2

/-! ### Concrete data for witnesses and counterexamples -/

/-- A student literal for concrete runs. -/
def exStudent (r : String) (y : Nat) (s : String) : Student :=
  { roll := r, name := "n", year := y, sec := s }

/-- A trivial generator model: the state is the seed itself. -/
def idRng : Option Nat → Nat := fun s => s.getD 0

/-- The identity shuffle (a permutation-respecting instance of the
abstract `rng.shuffle`). -/
def idShuffle : Nat → List Student → List Student × Nat := fun r l => (l, r)

theorem idShuffle_perm : ∀ (r : Nat) (l : List Student), ((idShuffle r l).1).Perm l :=
  fun _ l => List.Perm.refl l

/-- Five year-1 section-A students (the spec's single-year scenario). -/
def fiveYearOne : List Student :=
  [exStudent "1" 1 "A", exStudent "2" 1 "A", exStudent "3" 1 "A",
   exStudent "4" 1 "A", exStudent "5" 1 "A"]

/-- One year-1 student and two year-2 students, all section A. -/
def threeTwoYears : List Student :=
  [exStudent "1" 1 "A", exStudent "2" 2 "A", exStudent "3" 2 "A"]

/-- Four students of four distinct years (exercises the unhandled
`len(years) ≥ 4` pairing case). -/
def fourYears : List Student :=
  [exStudent "1" 1 "A", exStudent "2" 2 "A", exStudent "3" 3 "A", exStudent "4" 4 "A"]

/-! ### Claims -/

/-- C1: for every run of `generate_allocation`, whenever two created
seat-assignment records share the same room and the same bench number,
one `left` and one `right`, the academic years of the two seated
students differ. -/
theorem C1_no_same_year_bench {R : Type} (mkRng : Option Nat → R)
    (shuffleR : R → List Student → List Student × R)
    (hsh : ∀ r l, ((shuffleR r l).1).Perm l)
    (allocId : Nat) (db : List SeatAssignment) (students : List Student) (rooms : List Room)
    (rpr cpr : Option Nat) (ds : String) (seed : Option Nat) (fl : Bool) :
    ∀ a ∈ (generate_allocation mkRng shuffleR allocId db students rooms rpr cpr ds seed fl).new,
      ∀ b ∈ (generate_allocation mkRng shuffleR allocId db students rooms rpr cpr ds seed fl).new,
        a.roomIdx = b.roomIdx → a.bench_no = b.bench_no →
        a.seat_pos = SeatPos.left → b.seat_pos = SeatPos.right →
        a.student.year ≠ b.student.year := by
  intro a ha b hb hroom _hbench haL hbR
  by_cases h1 : students = []
  · rw [generate_allocation_empty mkRng shuffleR allocId db students rooms rpr cpr ds seed fl
      (Or.inl h1)] at ha
    simp at ha
  · by_cases h2 : rooms = []
    · rw [generate_allocation_empty mkRng shuffleR allocId db students rooms rpr cpr ds seed fl
        (Or.inr h2)] at ha
      simp at ha
    · rw [generate_allocation_run mkRng shuffleR allocId db students rooms rpr cpr ds seed fl
        h1 h2] at ha hb
      exact allocLoop_yearne allocId
        (calculate_pre_allocation_metrics students.length rooms.length).2 rooms
        (initialState (group_students_by_year_section mkRng shuffleR students ds seed)) 0
        (initial_run_Inv mkRng shuffleR hsh students ds seed)
        a ha b hb hroom haL hbR

/-- The left seat of bench 1 of room 0 in the witness run. -/
def c1recL : SeatAssignment :=
  { allocation := 0, roomIdx := 0, bench_no := 1, seat_pos := SeatPos.left,
    bench_type := "A", student := exStudent "1" 1 "A", row := 1, column := 1,
    position := SeatPos.left }

/-- The right seat of bench 1 of room 0 in the witness run. -/
def c1recR : SeatAssignment :=
  { allocation := 0, roomIdx := 0, bench_no := 1, seat_pos := SeatPos.right,
    bench_type := "A", student := exStudent "3" 2 "A", row := 1, column := 1,
    position := SeatPos.right }

/-- Witness for C1: a concrete run seats a year-1 and a year-2 student
on the two sides of bench 1. -/
theorem C1_no_same_year_bench_witness :
    c1recL ∈ (generate_allocation idRng idShuffle 0 [] threeTwoYears [⟨2, 1⟩, ⟨2, 1⟩]
      none none "cycle" none false).new ∧
    c1recR ∈ (generate_allocation idRng idShuffle 0 [] threeTwoYears [⟨2, 1⟩, ⟨2, 1⟩]
      none none "cycle" none false).new ∧
    c1recL.student.year ≠ c1recR.student.year :=
  ⟨by decide, by decide,
    C1_no_same_year_bench idRng idShuffle idShuffle_perm 0 [] threeTwoYears
      [⟨2, 1⟩, ⟨2, 1⟩] none none "cycle" none false c1recL (by decide) c1recR (by decide)
      rfl rfl rfl rfl⟩

/-- C4: once all group half-queues are empty, the room loop produces no
seat-assignment records for any remaining room (the `break` at the top
of the loop fires at once). -/
theorem C4_exhaustion_stop (allocId mpg : Nat) (st : AllocState) (rooms : List Room)
    (i : Nat) (h : ∀ k ∈ st.keys, st.halves k = ([], [])) :
    allocLoop allocId mpg st rooms i = ([], 0) := by
  refine allocLoop_stop allocId mpg st rooms i ?_
  rw [totalRemaining]
  refine List.sum_eq_zero ?_
  intro x hx
  obtain ⟨k, hk, rfl⟩ := List.mem_map.1 hx
  rw [remainingCount, h k hk]
  rfl

/-- Witness for C4: a state whose single group has two empty halves
yields no assignments for a waiting room. -/
theorem C4_exhaustion_stop_witness :
    (∀ k ∈ (initialState [((1, "A"), ([] : List Student))]).keys,
      (initialState [((1, "A"), ([] : List Student))]).halves k = ([], [])) ∧
    allocLoop 0 1 (initialState [((1, "A"), ([] : List Student))]) [⟨1, 1⟩] 0 = ([], 0) :=
  ⟨by decide,
    C4_exhaustion_stop 0 1 (initialState [((1, "A"), ([] : List Student))]) [⟨1, 1⟩] 0
      (by decide)⟩

/-- C2 (amended): for every run over students with distinct rolls, each
student appears in at most one created seat-assignment record — the
record rolls are distinct.  (The claim's second conjunct, that no
student is dropped while seat capacity remains, is refuted by
`C2_no_duplicate_placement_counterexample`.) -/
theorem C2_no_duplicate_placement {R : Type} (mkRng : Option Nat → R)
    (shuffleR : R → List Student → List Student × R)
    (hsh : ∀ r l, ((shuffleR r l).1).Perm l)
    (allocId : Nat) (db : List SeatAssignment) (students : List Student) (rooms : List Room)
    (rpr cpr : Option Nat) (ds : String) (seed : Option Nat) (fl : Bool)
    (hroll : (students.map (fun s => s.roll)).Nodup) :
    ((generate_allocation mkRng shuffleR allocId db students rooms rpr cpr ds seed fl).new.map
      (fun r => r.student.roll)).Nodup := by
  by_cases h1 : students = []
  · rw [generate_allocation_empty mkRng shuffleR allocId db students rooms rpr cpr ds seed fl
      (Or.inl h1)]
    simp
  · by_cases h2 : rooms = []
    · rw [generate_allocation_empty mkRng shuffleR allocId db students rooms rpr cpr ds seed fl
        (Or.inr h2)]
      simp
    · rw [generate_allocation_run mkRng shuffleR allocId db students rooms rpr cpr ds seed fl
        h1 h2]
      obtain ⟨hnd, hfields, hflat⟩ := group_students_props mkRng shuffleR hsh students ds seed
      have hsub := allocLoop_subperm allocId
        (calculate_pre_allocation_metrics students.length rooms.length).2 rooms
        (initialState (group_students_by_year_section mkRng shuffleR students ds seed)) 0
        (initial_run_Inv mkRng shuffleR hsh students ds seed)
      rw [initialState_flatten _ hnd] at hsub
      obtain ⟨l', hperm, hsl⟩ := hsub
      have hkey : (((allocLoop allocId
          (calculate_pre_allocation_metrics students.length rooms.length).2
          (initialState (group_students_by_year_section mkRng shuffleR students ds seed))
          rooms 0).1.map (fun r => r.student)).map (fun s => s.roll)).Subperm
          (students.map (fun s => s.roll)) :=
        List.Subperm.trans
          ⟨l'.map (fun s => s.roll), hperm.map _, hsl.map _⟩
          ((hflat.map (fun s => s.roll)).subperm)
      rw [List.map_map] at hkey
      obtain ⟨m, hmperm, hmsl⟩ := hkey
      exact hmperm.nodup_iff.1 (hroll.sublist hmsl)

/-- Witness for the amended C2: a concrete mixed-year run yields
pairwise-distinct record rolls. -/
theorem C2_no_duplicate_placement_witness :
    ((generate_allocation idRng idShuffle 0 [] threeTwoYears [⟨2, 1⟩, ⟨2, 1⟩]
      none none "cycle" none false).new.map (fun r => r.student.roll)).Nodup :=
  C2_no_duplicate_placement idRng idShuffle idShuffle_perm 0 [] threeTwoYears
    [⟨2, 1⟩, ⟨2, 1⟩] none none "cycle" none false (by decide)

/-- Counterexample for C2 as stated: five year-1 students, one room of
`3 × 2` (12 seats).  Only the first half of the group (3 students) is
placed, leaving 2 students unseated although 9 seats remain — the code
silently drops students while capacity remains. -/
theorem C2_no_duplicate_placement_counterexample :
    (generate_allocation idRng idShuffle 0 [] fiveYearOne [⟨3, 2⟩]
      none none "cycle" none false).total_seats = 3 ∧
    fiveYearOne.length = 5 ∧
    (([⟨3, 2⟩] : List Room).map (fun rm => 2 * (rm.rows * rm.cols))).sum = 12 := by
  refine ⟨by decide, by decide, by decide⟩

/-- C5 (amended): when at least two distinct years remain for a room but
the round-robin search finds no pairing with students on both sides (or
the pairing list is empty), the run does NOT abort: the room body
produces no records, leaves the state unchanged, and the loop silently
moves on to the next room (the source's bare `continue`). -/
theorem C5_no_pairing_silently_continues (allocId mpg i : Nat) (st : AllocState)
    (room : Room) (rest : List Room)
    (h0 : totalRemaining st ≠ 0)
    (h1 : (sortDedupNat ((availableGroups st).map Prod.fst)).length ≠ 1)
    (hall : ∀ p ∈ build_dynamic_pairings (availableGroups st)
        ((availableGroups st).map Prod.fst),
      ¬(0 < remainingCount st p.1 ∧ 0 < remainingCount st p.2)) :
    allocLoop allocId mpg st (room :: rest) i = allocLoop allocId mpg st rest (i + 1) := by
  have hnone : find_valid_pairing (remainingCount st)
      (build_dynamic_pairings (availableGroups st) ((availableGroups st).map Prod.fst))
      st.pairingIdx 0
      (build_dynamic_pairings (availableGroups st)
        ((availableGroups st).map Prod.fst)).length = none := by
    by_cases hpe : build_dynamic_pairings (availableGroups st)
        ((availableGroups st).map Prod.fst) = []
    · rw [hpe]
      simp [find_valid_pairing]
    · exact find_valid_pairing_none _ _ hpe hall _ _ _
  have hstep : roomStep allocId mpg st room i = ([], st) := by
    simp only [roomStep]
    rw [if_neg h1, hnone]
  simp only [allocLoop]
  rw [if_neg h0, hstep]
  simp

/-- Witness for the amended C5: four distinct years, no pairing built,
the room is skipped with no records and no state change. -/
theorem C5_no_pairing_silently_continues_witness :
    allocLoop 0 1
      (initialState (group_students_by_year_section idRng idShuffle fourYears "cycle" none))
      [⟨1, 1⟩] 0 =
    allocLoop 0 1
      (initialState (group_students_by_year_section idRng idShuffle fourYears "cycle" none))
      [] 1 :=
  C5_no_pairing_silently_continues 0 1 0
    (initialState (group_students_by_year_section idRng idShuffle fourYears "cycle" none))
    ⟨1, 1⟩ [] (by decide) (by decide) (by decide)

/-- Counterexample for C5 as stated: four students of four distinct
years and one nonempty room.  More than one year is present, the pairing
list is empty, yet the run completes normally with zero records and zero
rooms processed — no abort, no error, the students are quietly ignored. -/
theorem C5_no_pairing_silently_continues_counterexample :
    (sortDedupNat (fourYears.map (fun s => s.year))).length = 4 ∧
    generate_allocation idRng idShuffle 0 [] fourYears [⟨1, 1⟩]
      none none "cycle" none false =
      { db := [], new := [], total_seats := 0, rooms_processed := 0 } := by
  exact ⟨by decide, by decide⟩

/-- C6 (amended): under the "cycle" strategy, for every group
`(year, section)` the sequence of that group's students in placement
order across the whole run is an order-preserving interleaving of a
prefix of the group's first half-queue with a prefix of its second
half-queue (the halves of the ascending-roll group queue).  It is NOT in
general the ascending-roll sequence itself: the per-room half
alternation can place a second-half student before a first-half one, as
`C6_cycle_placement_interleaves_halves_counterexample` shows. -/
theorem C6_cycle_placement_interleaves_halves {R : Type} (mkRng : Option Nat → R)
    (shuffleR : R → List Student → List Student × R)
    (allocId : Nat) (db : List SeatAssignment) (students : List Student) (rooms : List Room)
    (rpr cpr : Option Nat) (seed : Option Nat) (fl : Bool) (k : Nat × String) :
    ∃ l1 l2,
      l1 <+: ((initialState
        (group_students_by_year_section mkRng shuffleR students "cycle" seed)).halves k).1 ∧
      l2 <+: ((initialState
        (group_students_by_year_section mkRng shuffleR students "cycle" seed)).halves k).2 ∧
      Interleave l1 l2
        (((generate_allocation mkRng shuffleR allocId db students rooms rpr cpr "cycle" seed
            fl).new.filter
          (fun r => r.student.year = k.1 ∧ r.student.sec = k.2)).map (fun r => r.student)) := by
  by_cases h1 : students = []
  · refine ⟨[], [], List.nil_prefix, List.nil_prefix, ?_⟩
    rw [generate_allocation_empty mkRng shuffleR allocId db students rooms rpr cpr "cycle"
      seed fl (Or.inl h1)]
    exact Interleave.nil
  · by_cases h2 : rooms = []
    · refine ⟨[], [], List.nil_prefix, List.nil_prefix, ?_⟩
      rw [generate_allocation_empty mkRng shuffleR allocId db students rooms rpr cpr "cycle"
        seed fl (Or.inr h2)]
      exact Interleave.nil
    · rw [generate_allocation_run mkRng shuffleR allocId db students rooms rpr cpr "cycle"
        seed fl h1 h2]
      have hbase := groupFold_props (sortByRoll students) [] (by simp) (by simp)
      have hInv : Inv (initialState
          (group_students_by_year_section mkRng shuffleR students "cycle" seed)) := by
        rw [group_students_cycle]
        exact initialState_Inv _ hbase.1 hbase.2.1
      exact allocLoop_interleave allocId
        (calculate_pre_allocation_metrics students.length rooms.length).2 rooms
        (initialState (group_students_by_year_section mkRng shuffleR students "cycle" seed))
        0 hInv k

/-- Counterexample for C6 as stated: one year-1 and two year-2 students
across two one-bench rooms.  Group `(2, "A")`'s queue in ascending roll
order is `["2", "3"]`, but the run places roll "3" (second half, right
seat of room 0) before roll "2" (first half, room 1) — placement order
is `["3", "2"]`, not the ascending-roll order. -/
theorem C6_cycle_placement_interleaves_halves_counterexample :
    (((generate_allocation idRng idShuffle 0 [] threeTwoYears [⟨2, 1⟩, ⟨2, 1⟩]
        none none "cycle" none false).new.filter
      (fun r => r.student.year = 2 ∧ r.student.sec = "A")).map (fun r => r.student.roll)) =
      ["3", "2"] ∧
    ((sortByRoll threeTwoYears).filter
      (fun s => s.year = 2 ∧ s.sec = "A")).map (fun s => s.roll) = ["2", "3"] := by
  exact ⟨by decide, by decide⟩

/-- C7 (amended): for the 5-student single-year group and a 3 × 2 room,
the run places only the FIRST HALF of the group — 3 left-seat records on
benches 1..3 in column-major order — and does not stop: with a second
room present, the remaining 2 students are placed there (benches 1..2)
and two rooms are processed. -/
theorem C7_single_year_places_first_half :
    ((generate_allocation idRng idShuffle 0 [] fiveYearOne [⟨3, 2⟩] none none "cycle" none
        false).new.map (fun r => (r.roomIdx, r.bench_no, r.seat_pos, r.student.roll))) =
      [(0, 1, SeatPos.left, "1"), (0, 2, SeatPos.left, "2"), (0, 3, SeatPos.left, "3")] ∧
    ((generate_allocation idRng idShuffle 0 [] fiveYearOne [⟨3, 2⟩, ⟨3, 2⟩] none none "cycle"
        none false).new.map (fun r => (r.roomIdx, r.bench_no, r.seat_pos, r.student.roll))) =
      [(0, 1, SeatPos.left, "1"), (0, 2, SeatPos.left, "2"), (0, 3, SeatPos.left, "3"),
       (1, 1, SeatPos.left, "4"), (1, 2, SeatPos.left, "5")] ∧
    (generate_allocation idRng idShuffle 0 [] fiveYearOne [⟨3, 2⟩, ⟨3, 2⟩] none none "cycle"
      none false).rooms_processed = 2 := by
  exact ⟨by decide, by decide, by decide⟩

/-- Counterexample for C7 as stated: the same 5-student, one-room
scenario yields 3 seat-assignment records, not the claimed 5 — the
single-year branch limits each room to one half-queue's worth of
students. -/
theorem C7_single_year_places_first_half_counterexample :
    (generate_allocation idRng idShuffle 0 [] fiveYearOne [⟨3, 2⟩] none none "cycle" none
      false).total_seats = 3 := by
  decide

/-- C8: `generate_allocation` is deterministic.  With strategy "block"
two runs on identical inputs and the same seed produce identical output
(the seed fully determines the generator, so the run is a pure function
of its arguments); with strategy "cycle" two runs produce identical
output even under different generator models and different seeds — the
grouping stage never consumes the generator. -/
theorem C8_determinism {R1 R2 : Type} (mkRng1 : Option Nat → R1)
    (shuffleR1 : R1 → List Student → List Student × R1)
    (mkRng2 : Option Nat → R2) (shuffleR2 : R2 → List Student → List Student × R2)
    (allocId : Nat) (db : List SeatAssignment) (students : List Student) (rooms : List Room)
    (rpr cpr : Option Nat) (seed1 seed2 : Option Nat) (fl : Bool) :
    (generate_allocation mkRng1 shuffleR1 allocId db students rooms rpr cpr "block" seed1 fl =
      generate_allocation mkRng1 shuffleR1 allocId db students rooms rpr cpr "block" seed1
        fl) ∧
    (generate_allocation mkRng1 shuffleR1 allocId db students rooms rpr cpr "cycle" seed1 fl =
      generate_allocation mkRng2 shuffleR2 allocId db students rooms rpr cpr "cycle" seed2
        fl) := by
  refine ⟨rfl, ?_⟩
  simp only [generate_allocation]
  rw [group_students_cycle mkRng1 shuffleR1, group_students_cycle mkRng2 shuffleR2]

/-- C9: in every run, the returned `total_seats` is at most the sum over
all rooms of `2 × rows × cols`; every created record names a real room
of the list, with bench number between 1 and that room's `rows × cols`;
and no two records collide on (room, bench, seat side) — so each bench
carries at most one left and one right record. -/
theorem C9_capacity_and_bench_bounds {R : Type} (mkRng : Option Nat → R)
    (shuffleR : R → List Student → List Student × R)
    (allocId : Nat) (db : List SeatAssignment) (students : List Student) (rooms : List Room)
    (rpr cpr : Option Nat) (ds : String) (seed : Option Nat) (fl : Bool) :
    (generate_allocation mkRng shuffleR allocId db students rooms rpr cpr ds seed
        fl).total_seats ≤ (rooms.map (fun rm => 2 * (rm.rows * rm.cols))).sum ∧
    (∀ r ∈ (generate_allocation mkRng shuffleR allocId db students rooms rpr cpr ds seed
        fl).new,
      ∃ j rm, rooms[j]? = some rm ∧ r.roomIdx = j ∧
        1 ≤ r.bench_no ∧ r.bench_no ≤ rm.rows * rm.cols) ∧
    List.Pairwise (fun x y =>
        ¬(x.roomIdx = y.roomIdx ∧ x.bench_no = y.bench_no ∧ x.seat_pos = y.seat_pos))
      (generate_allocation mkRng shuffleR allocId db students rooms rpr cpr ds seed fl).new := by
  by_cases h1 : students = []
  · rw [generate_allocation_empty mkRng shuffleR allocId db students rooms rpr cpr ds seed fl
      (Or.inl h1)]
    exact ⟨Nat.zero_le _, by simp, by simp⟩
  · by_cases h2 : rooms = []
    · rw [generate_allocation_empty mkRng shuffleR allocId db students rooms rpr cpr ds seed fl
        (Or.inr h2)]
      exact ⟨Nat.zero_le _, by simp, by simp⟩
    · rw [generate_allocation_run mkRng shuffleR allocId db students rooms rpr cpr ds seed fl
        h1 h2]
      refine ⟨allocLoop_length allocId _ rooms _ 0, ?_, allocLoop_pairwise allocId _ rooms _ 0⟩
      intro r hr
      obtain ⟨j, rm, hj, hidx, hb1, hb2⟩ := allocLoop_mem allocId
        (calculate_pre_allocation_metrics students.length rooms.length).2 rooms
        (initialState (group_students_by_year_section mkRng shuffleR students ds seed)) 0 r hr
      exact ⟨j, rm, hj, by omega, hb1, hb2⟩

/-- A pre-existing record of the target allocation (id 0), deleted by
the run. -/
def c10gone : SeatAssignment :=
  { allocation := 0, roomIdx := 0, bench_no := 1, seat_pos := SeatPos.left,
    bench_type := "A", student := exStudent "8" 1 "A", row := 1, column := 1,
    position := SeatPos.left }

/-- A pre-existing record of another allocation (id 1), untouched by the
run. -/
def c10keep : SeatAssignment :=
  { allocation := 1, roomIdx := 0, bench_no := 1, seat_pos := SeatPos.left,
    bench_type := "A", student := exStudent "9" 1 "A", row := 1, column := 1,
    position := SeatPos.left }

/-- C10: on an empty student list or an empty room list the run returns
zero `total_seats` and `rooms_processed` and creates no records, but the
persisted record set has already lost every pre-existing record of the
target allocation — the delete precedes the empty-input early return and
is not rolled back. -/
theorem C10_empty_input_still_deletes {R : Type} (mkRng : Option Nat → R)
    (shuffleR : R → List Student → List Student × R)
    (allocId : Nat) (db : List SeatAssignment) (students : List Student) (rooms : List Room)
    (rpr cpr : Option Nat) (ds : String) (seed : Option Nat) (fl : Bool)
    (h : students = [] ∨ rooms = []) :
    generate_allocation mkRng shuffleR allocId db students rooms rpr cpr ds seed fl =
      { db := db.filter (fun r => r.allocation ≠ allocId), new := [],
        total_seats := 0, rooms_processed := 0 } :=
  generate_allocation_empty mkRng shuffleR allocId db students rooms rpr cpr ds seed fl h

/-- Witness for C10: with no students, a database holding one record of
allocation 0 and one of allocation 1 comes out with only the
allocation-1 record — the allocation-0 record is gone despite the early
return. -/
theorem C10_empty_input_still_deletes_witness :
    generate_allocation idRng idShuffle 0 [c10gone, c10keep] [] [⟨1, 1⟩]
      none none "cycle" none false =
      { db := [c10keep], new := [], total_seats := 0, rooms_processed := 0 } :=
  (C10_empty_input_still_deletes idRng idShuffle 0 [c10gone, c10keep] [] [⟨1, 1⟩]
    none none "cycle" none false (Or.inl rfl)).trans (by decide)

end Seating
